import Mathlib

/-!
Verification development for the document-redaction application.

The development shallowly embeds:
* the entity-substitution algorithm of the Redaction Engine (spec §4.3),
* the batch endpoint `redact_documents` from `backendchanges.md` §7,
* the `can_handle` methods of the format handlers from `backendchanges.md` §4,
* the format-detection utilities from `backendchanges.md` §9,
* the `pollForResults` / `queryDeltaTableResults` loops from
  `frontend/src/app/document-intelligence/page.tsx`,
* the Job Orchestrator contract (spec §4.5), and
* per-format extract/serialize pairs (spec §4.1).

Components whose executable body is absent from the repository sources
(only declared as stubs or described in the design documents) are modelled
from the specification text; every such definition carries a doc comment
starting with `Modelled from the spec:`.
-/

/- ======================================================================
   Basic string machinery (over `List Char`, the logical model of `String`)
   ====================================================================== -/

/-- Index of the first occurrence of `k` in `s` (`none` if `k` does not
occur).  An empty `k` occurs at index 0. -/
def strFind (k : List Char) : List Char → Option Nat
  | [] => if k.isPrefixOf ([] : List Char) then some 0 else none
  | a :: t =>
    if k.isPrefixOf (a :: t) then some 0
    else (strFind k t).map (· + 1)

/-- Whether `k` occurs as a contiguous substring of `s`. -/
def occursIn (k s : List Char) : Bool :=
  (strFind k s).isSome

/-- Fuel-driven splitting of `s` at the leftmost, non-overlapping
occurrences of `k`; returns the list of pieces between occurrences. -/
def splitOnKeyGo (k : List Char) : Nat → List Char → List (List Char)
  | 0, s => [s]
  | fuel + 1, s =>
    match strFind k s with
    | none => [s]
    | some i => s.take i :: splitOnKeyGo k fuel (s.drop (i + k.length))

/-- Split `s` at the leftmost, non-overlapping occurrences of `k`. -/
def splitOnKey (k s : List Char) : List (List Char) :=
  splitOnKeyGo k s.length s

/-- Split a character list at every occurrence of the character `c`. -/
def splitOnChar (c : Char) : List Char → List (List Char)
  | [] => [[]]
  | a :: t =>
    let r := splitOnChar c t
    if a = c then [] :: r
    else
      match r with
      | [] => [[a]]
      | h :: t' => (a :: h) :: t'

/-- Join pieces with the character `c` between consecutive pieces. -/
def joinChar (c : Char) : List (List Char) → List Char
  | [] => []
  | [p] => p
  | p :: q :: r => p ++ c :: joinChar c (q :: r)

/-- ASCII-style lowercasing of a string, modelling Python `str.lower` on
the ASCII range. -/
def pyLower (s : String) : String :=
  ⟨s.data.map Char.toLower⟩

/-- Whether string `s` ends with `suf`, modelling Python `str.endswith`. -/
def endsWithL (s suf : String) : Bool :=
  suf.data.isSuffixOf s.data

/- ======================================================================
   Redaction Engine substitution (spec §4.3 steps 3-6)
   ====================================================================== -/

/-- A mapping from exact entity text to replacement token (spec §3
`EntityMap`), represented as an association list with unique keys. -/
abbrev EntityMap := List (String × String)

/-- A segment of working text during substitution: `raw` text is still
substitutable, `tok` text was produced by a replacement and is inert. -/
inductive Seg where
  | raw (s : List Char)
  | tok (s : List Char)
deriving DecidableEq

/-- Render a segment back to its character content. -/
def Seg.chars : Seg → List Char
  | .raw s => s
  | .tok s => s

/-- Render a segment list back to plain text. -/
def renderSegs (segs : List Seg) : List Char :=
  (segs.map Seg.chars).flatten

/-- Modelled from the spec: replace every occurrence of key `k` inside one
segment by the token `v`; `tok` segments are inert and never rescanned
(spec §4.3 step 4).  The handlers' `redact_content` bodies are stubs in
`backendchanges.md`, so the substitution step is modelled from spec §4.3. -/
def replaceInSeg (k v : List Char) : Seg → List Seg
  | .tok t => [.tok t]
  | .raw s => ((splitOnKey k s).map Seg.raw).intersperse (Seg.tok v)

/-- Apply one key's replacement across a whole segment list. -/
def replaceKeySegs (k v : List Char) (segs : List Seg) : List Seg :=
  (segs.map (replaceInSeg k v)).flatten

/-- Whether key `k` occurs in some still-substitutable (`raw`) segment. -/
def segsHaveKey (k : List Char) (segs : List Seg) : Bool :=
  segs.any fun s =>
    match s with
    | .raw t => occursIn k t
    | .tok _ => false

/-- Modelled from the spec: apply the (already sorted) keys in order to a
segment list, recording which keys matched at least once (spec §4.3 steps
4-5); all matches of the current key are applied before moving to the next
key, and replacement output is never rescanned. -/
def applyKeysH : List (String × String) → List Seg → List Seg × List String
  | [], segs => (segs, [])
  | (k, v) :: rest, segs =>
    let hit := segsHaveKey k.data segs
    let out := applyKeysH rest (replaceKeySegs k.data v.data segs)
    (out.1, if hit then k :: out.2 else out.2)

/-- Ordering relation on EntityMap entries: descending key length,
ties broken by lexicographic order on the key (spec §4.3 step 3). -/
def keyRel (a b : String × String) : Prop :=
  b.1.length < a.1.length ∨ (a.1.length = b.1.length ∧ a.1 ≤ b.1)

instance : DecidableRel keyRel := fun a b => by
  unfold keyRel; infer_instance

instance : IsTotal (String × String) keyRel := by
  constructor
  intro a b
  rcases Nat.lt_trichotomy a.1.length b.1.length with h | h | h
  · exact Or.inr (Or.inl h)
  · rcases le_total a.1 b.1 with h' | h'
    · exact Or.inl (Or.inr ⟨h, h'⟩)
    · exact Or.inr (Or.inr ⟨h.symm, h'⟩)
  · exact Or.inl (Or.inl h)

instance : IsTrans (String × String) keyRel := by
  constructor
  intro a b c hab hbc
  rcases hab with h1 | ⟨e1, l1⟩
  · rcases hbc with h2 | ⟨e2, _⟩
    · exact Or.inl (h2.trans h1)
    · exact Or.inl (e2 ▸ h1)
  · rcases hbc with h2 | ⟨e2, l2⟩
    · exact Or.inl (e1 ▸ h2)
    · exact Or.inr ⟨e1.trans e2, l1.trans l2⟩

/-- Modelled from the spec: sort the EntityMap entries by descending key
length, ties broken by lexicographic order, before substitution
(spec §4.3 step 3). -/
def sortEntityMap (m : EntityMap) : EntityMap :=
  List.insertionSort keyRel m

/-- Modelled from the spec: substitute every key of `m` in the text of a
single ContentUnit, longest key first, replacement output inert
(spec §4.3 steps 3-4). -/
def substUnit (m : EntityMap) (t : String) : String :=
  ⟨renderSegs (applyKeysH (sortEntityMap m) [Seg.raw t.data]).1⟩

/- ======================================================================
   Plain-text format handler and the Redaction Engine (spec §4.1, §4.3)
   ====================================================================== -/

/-- Modelled from the spec: the plain/markdown handler extracts the buffer
as line-scoped ContentUnits, location = line index (spec §4.1). -/
def extractPlain (x : String) : List (Nat × String) :=
  ((splitOnChar '\n' x.data).map (fun l => (⟨l⟩ : String))).enum

/-- Modelled from the spec: the plain/markdown handler serializes a
content model by joining the unit texts with newlines (spec §4.1). -/
def serializePlain (units : List (Nat × String)) : String :=
  ⟨joinChar '\n' (units.map (fun u => u.2.data))⟩

/-- Status component of a RedactionResult (spec §3). -/
inductive RStatus where
  | redacted
  | no_entities_found
  | unsupported_format
  | failed
deriving DecidableEq

/-- Per-document RedactionResult (spec §3; `outputLocation` is omitted as
it concerns external storage, which is out of scope). -/
structure RedactionResult where
  entitiesApplied : Nat
  appliedEntities : List String
  status : RStatus
deriving DecidableEq

/-- The per-unit substitution pass of the engine over the extracted
content model, given the already-sorted EntityMap. -/
def engineProcessed (x : String) (sorted : EntityMap) :
    List (Nat × (List Seg × List String)) :=
  (extractPlain x).map (fun u => (u.1, applyKeysH sorted [Seg.raw u.2.data]))

/-- The keys that matched at least once across all units, in sorted-key
order (spec §4.3 step 5, `appliedEntities`). -/
def engineApplied (x : String) (sorted : EntityMap) : List String :=
  (sorted.map (·.1)).filter
    (fun k => (engineProcessed x sorted).any (fun p => k ∈ p.2.2))

/-- Modelled from the spec: the Redaction Engine for the plain-text
handler (spec §4.3): extract, sort the EntityMap, substitute in every
unit recording matched keys, and either return the input unchanged with
`no_entities_found` (step 6) or serialize the mutated model with
`redacted` (step 7). -/
def redactEngine (x : String) (m : EntityMap) : String × RedactionResult :=
  if (engineApplied x (sortEntityMap m)).isEmpty then
    (x, ⟨0, [], .no_entities_found⟩)
  else
    (⟨joinChar '\n'
        ((engineProcessed x (sortEntityMap m)).map (fun p => renderSegs p.2.1))⟩,
     ⟨(engineApplied x (sortEntityMap m)).length,
       engineApplied x (sortEntityMap m), .redacted⟩)

/- ======================================================================
   Format detection and handler registry (backendchanges.md §9, §6.B)
   ====================================================================== -/

/-- Count of leading occurrences of `c` in a character list. -/
def countLeading (c : Char) : List Char → Nat
  | [] => 0
  | a :: t => if a = c then countLeading c t + 1 else 0

/-- Extension of a path, modelling Python `os.path.splitext(path)[1]`:
the extension starts at the last dot of the basename, where leading dots
of the basename do not count. -/
def pySplitextExt (path : String) : String :=
  let base := (splitOnChar '/' path.data).getLastD []
  let rest := base.drop (countLeading '.' base)
  let parts := splitOnChar '.' rest
  if parts.length ≤ 1 then ""
  else ⟨'.' :: parts.getLastD []⟩

/-- The extension-to-format mapping of `detect_file_format`
(`backend/utils/format_detection.py` in backendchanges.md §9). -/
def formatMapping : List (String × String) :=
  [(".md", "markdown"), (".markdown", "markdown"),
   (".xlsx", "excel"), (".xls", "excel"),
   (".pptx", "powerpoint"), (".ppt", "powerpoint"),
   (".pdf", "pdf")]

/-- The function `detect_file_format(file_path)` from backendchanges.md §9: lowercase
the path, take its extension, look it up, defaulting to `"unknown"`. -/
def detectFileFormat (path : String) : String :=
  let ext := pySplitextExt (pyLower path)
  (((formatMapping.find? (fun p => p.1 == ext)).map (·.2)).getD "unknown")

/-- The keys of the `FORMAT_HANDLERS` registry (backendchanges.md §6.B). -/
def formatHandlersKeys : List String :=
  ["markdown", "excel", "powerpoint"]

/-- The function `get_format_handler(format_type)` resolves against `FORMAT_HANDLERS`;
`True` when a handler instance is registered for the format. -/
def hasHandler (fmt : String) : Bool :=
  formatHandlersKeys.contains fmt

/- ======================================================================
   The batch endpoint redact_documents (backendchanges.md §7)
   ====================================================================== -/

/-- One entry of the `redacted_files` response list built by
`redact_documents` (backendchanges.md §7); statuses are the string
literals used by the code. -/
structure FileResult where
  originalFile : String
  redactedFile : String
  entitiesCount : Nat
  status : String
  format : String
deriving DecidableEq

/-- External collaborators of `redact_documents`: the Delta-table content
lookup, the NER entity extraction, and the per-handler `redact_content`
(whose body is a stub in the source, hence abstracted as a function that
may raise). -/
structure BatchEnv where
  tableContent : String → Option String
  ner : String → List (String × String)
  redactContent : String → String → List (String × String) →
    Except String String

/-- The per-path body of the `for original_file_path in request.file_paths`
loop of `redact_documents` (backendchanges.md §7): detect the format,
resolve the handler (`continue` when absent), fetch the content
(`continue` when missing, or when empty or whitespace-only, the
`not content or not content.strip()` test), run NER, and either record a
`no_entities_found` entry or call `redact_content` (whose exception
propagates).  `.ok none` models `continue`. -/
def processOne (env : BatchEnv) (path : String) :
    Except String (Option FileResult) :=
  let fmt := detectFileFormat path
  if hasHandler fmt then
    match env.tableContent path with
    | none => .ok none
    | some content =>
      if content.data.all Char.isWhitespace then .ok none
      else
        let entities := env.ner content
        if entities.isEmpty then
          .ok (some ⟨path, path, 0, "no_entities_found", fmt⟩)
        else
          match env.redactContent fmt path entities with
          | .error e => .error e
          | .ok rp => .ok (some ⟨path, rp, entities.length, "redacted", fmt⟩)
  else .ok none

/-- The whole `for` loop of `redact_documents`: an exception raised while
processing any document propagates to the enclosing `try`/`except` and
discards every accumulated per-document entry. -/
def redactLoop (env : BatchEnv) : List String → Except String (List FileResult)
  | [] => .ok []
  | p :: rest =>
    match processOne env p with
    | .error e => .error e
    | .ok none => redactLoop env rest
    | .ok (some r) => (redactLoop env rest).map (r :: ·)

/-- The endpoint `redact_documents(request)` from backendchanges.md §7: empty
`file_paths` is an HTTP 400; any exception inside the loop becomes a
single HTTP 500 for the whole batch (`.error`); otherwise the
`redacted_files` list is returned (`.ok`). -/
def redactDocuments (env : BatchEnv) (paths : List String) :
    Except String (List FileResult) :=
  if paths.isEmpty then .error "file_paths is required"
  else redactLoop env paths

/-- Concrete environment for the batch claims: every path has content,
NER finds one entity, and `redact_content` raises exactly on `b.md`
(corrupted bytes). -/
def envBatch : BatchEnv where
  tableContent := fun _ => some "Alice met Bob"
  ner := fun _ => [("Alice", "[NAME]")]
  redactContent := fun _ p _ =>
    if p = "b.md" then .error "corrupted bytes" else .ok (p ++ "_redacted")

/- ======================================================================
   Handler can_handle methods (backendchanges.md §4)
   ====================================================================== -/

/-- The three format handlers implemented in backendchanges.md §4. -/
inductive Handler where
  | markdown
  | excel
  | powerpoint
deriving DecidableEq

/-- The extension disjunct of each handler's `can_handle`:
`file_path.lower().endswith(...)` (backendchanges.md §4). -/
def extMatch (h : Handler) (filePath : String) : Bool :=
  match h with
  | .markdown => endsWithL (pyLower filePath) ".md"
  | .excel =>
    endsWithL (pyLower filePath) ".xlsx" || endsWithL (pyLower filePath) ".xls"
  | .powerpoint =>
    endsWithL (pyLower filePath) ".pptx" || endsWithL (pyLower filePath) ".ppt"

/-- The MIME-type disjunct of each handler's `can_handle`
(backendchanges.md §4). -/
def mimeMatch (h : Handler) (mimeType : String) : Bool :=
  match h with
  | .markdown => mimeType == "text/markdown"
  | .excel =>
    ["application/vnd.openxmlformats-officedocument.spreadsheetml.sheet"].contains
      mimeType
  | .powerpoint =>
    mimeType ==
      "application/vnd.openxmlformats-officedocument.presentationml.presentation"

/-- The method `can_handle(file_path, mime_type)` of each handler, exactly as written
in backendchanges.md §4: extension check, `or` MIME-type check. -/
def canHandle (h : Handler) (filePath mimeType : String) : Bool :=
  match h with
  | .markdown =>
    endsWithL (pyLower filePath) ".md" || mimeType == "text/markdown"
  | .excel =>
    (endsWithL (pyLower filePath) ".xlsx" || endsWithL (pyLower filePath) ".xls")
      || ["application/vnd.openxmlformats-officedocument.spreadsheetml.sheet"].contains
        mimeType
  | .powerpoint =>
    (endsWithL (pyLower filePath) ".pptx" || endsWithL (pyLower filePath) ".ppt")
      || mimeType ==
        "application/vnd.openxmlformats-officedocument.presentationml.presentation"

/- ======================================================================
   Delta-table polling (page.tsx: pollForResults, queryDeltaTableResults)
   ====================================================================== -/

/-- The outcome of one `/api/query-delta-table` call as observed by the
frontend: a response with its `success` flag and `data` array, or a
thrown error (the `catch` branch). -/
inductive QueryOutcome where
  | ok (success : Bool) (data : List String)
  | exn
deriving DecidableEq

/-- The success test of the polling loop
(`queryResult.success && queryResult.data && queryResult.data.length > 0`). -/
def goodResult : QueryOutcome → Bool
  | .ok true d => decide (0 < d.length)
  | _ => false

/-- The `data` array carried by an outcome (empty for an exception). -/
def dataOf : QueryOutcome → List String
  | .ok _ d => d
  | .exn => []

/-- Result of the polling loop: data found at some attempt, or the
"taking longer than expected" give-up path once `attemptCount` reaches
`maxAttempts`. -/
inductive PollOutcome where
  | success (data : List String) (attempt : Nat)
  | timeout
deriving DecidableEq

/-- The constant `maxAttempts = 30` from `pollForResults` in page.tsx. -/
def maxAttempts : Nat := 30

/-- Recursion core of `pollForResults`; the fuel argument equals
`maxAttempts - attemptCount`, making the recursion structural while the
`maxAttempts ≤ attemptCount` guard mirrors the code's test. -/
def pollGo (env : Nat → QueryOutcome) : Nat → Nat → PollOutcome
  | 0, _ => .timeout
  | fuel + 1, attemptCount =>
    if maxAttempts ≤ attemptCount then .timeout
    else if goodResult (env attemptCount) then
      .success (dataOf (env attemptCount)) attemptCount
    else pollGo env fuel (attemptCount + 1)

/-- The loop `pollForResults(attemptCount)` from page.tsx: stop with the give-up
message once `attemptCount` reaches `maxAttempts`; otherwise query, stop
on a successful non-empty response, and retry (also on exceptions) with
`attemptCount + 1`.  The environment `env` gives the query outcome
observed at each attempt. -/
def pollForResults (env : Nat → QueryOutcome) (attemptCount : Nat) :
    PollOutcome :=
  pollGo env (maxAttempts - attemptCount) attemptCount

/-- Recursion core of the query counter, with the same fuel discipline as
`pollGo`. -/
def pollQueriesGo (env : Nat → QueryOutcome) : Nat → Nat → Nat
  | 0, _ => 0
  | fuel + 1, attemptCount =>
    if maxAttempts ≤ attemptCount then 0
    else if goodResult (env attemptCount) then 1
    else pollQueriesGo env fuel (attemptCount + 1) + 1

/-- Number of `/api/query-delta-table` calls issued by
`pollForResults env attemptCount`. -/
def pollQueries (env : Nat → QueryOutcome) (attemptCount : Nat) : Nat :=
  pollQueriesGo env (maxAttempts - attemptCount) attemptCount

/-- The function `queryDeltaTableResults` from page.tsx, issuing a single query at time
`t`: on a response with `success` it surfaces the `data` array, otherwise
it reports an error (`none`). -/
def queryDeltaTableResults (env : Nat → QueryOutcome) (t : Nat) :
    Option (List String) :=
  match env t with
  | .ok true d => some d
  | _ => none

/- ======================================================================
   Job Orchestrator (spec §4.5; no implementation exists in src/)
   ====================================================================== -/

/-- Job states of the orchestrator state machine (spec §3, §4.5). -/
inductive JobState where
  | submitted
  | pending
  | ready
  | expired
  | failed
deriving DecidableEq

/-- Modelled from the spec: the orchestrator's `documentId → Job` map plus
a counter of backing extractions started against the external slow
service (spec §4.5).  The repository contains no Job Orchestrator
implementation (page.tsx fires `write-to-delta-table` unconditionally;
spec §9 flags the orchestrator as a re-architecture of that code). -/
structure Orch where
  jobs : List (String × JobState)
  started : Nat
deriving DecidableEq

/-- Look up the job state recorded for a documentId. -/
def lookupJob (id : String) (jobs : List (String × JobState)) :
    Option JobState :=
  (jobs.find? (fun p => p.1 == id)).map (·.2)

/-- Modelled from the spec: `submit(documentId) → JobHandle` (spec §4.5):
if a job for the documentId is already `pending`, return the existing
handle without touching the job map; otherwise record a fresh `pending`
job and start one backing extraction. -/
def submitJob (s : Orch) (id : String) : String × Orch :=
  match lookupJob id s.jobs with
  | some .pending => (id, s)
  | _ => (id, ⟨(id, .pending) :: s.jobs, s.started + 1⟩)

/- ======================================================================
   Per-format extract/serialize pairs (spec §4.1; the handlers' bodies
   are stubs in backendchanges.md, so all of this is modelled from the
   spec's format-specific extraction rules)
   ====================================================================== -/

/-- Modelled from the spec: paginated-document extraction — one unit per
text span per page, in reading order; location = (page, span)
(spec §4.1). -/
def extractPag (d : List (List String)) : List ((Nat × Nat) × String) :=
  (List.range d.length).flatMap (fun i =>
    (List.range (d.getD i []).length).map (fun j =>
      ((i, j), (d.getD i []).getD j "")))

/-- One past the largest page index carrying a unit. -/
def supPage (u : List ((Nat × Nat) × String)) : Nat :=
  u.foldr (fun x acc => max (x.1.1 + 1) acc) 0

/-- One past the largest span index carrying a unit on page `i`. -/
def supSpan (u : List ((Nat × Nat) × String)) (i : Nat) : Nat :=
  u.foldr (fun x acc => if x.1.1 = i then max (x.1.2 + 1) acc else acc) 0

/-- The text recorded for location `(i, j)` (empty when absent). -/
def textAtPag (u : List ((Nat × Nat) × String)) (i j : Nat) : String :=
  ((u.find? (fun x => decide (x.1 = (i, j)))).map (·.2)).getD ""

/-- Modelled from the spec: paginated-document serialization — re-emit
every unit at its recorded (page, span) location (spec §4.1, §3's
location-stability invariant). -/
def buildPag (u : List ((Nat × Nat) × String)) : List (List String) :=
  (List.range (supPage u)).map (fun i =>
    (List.range (supSpan u i)).map (fun j => textAtPag u i j))

/-- Modelled from the spec: slide-deck extraction — one unit per text run
within every shape on every slide, in slide order then shape order then
run order; location = (slide, shape, run) (spec §4.1). -/
def extractSlides (d : List (List (List String))) :
    List ((Nat × Nat × Nat) × String) :=
  (List.range d.length).flatMap (fun i =>
    (List.range (d.getD i []).length).flatMap (fun j =>
      (List.range ((d.getD i []).getD j []).length).map (fun k =>
        ((i, j, k), ((d.getD i []).getD j []).getD k ""))))

/-- Modelled from the spec: tabular extraction — one unit per non-empty
cell, location = (sheet, row, column), scanned in sheet, row, column
order (spec §4.1); the empty string models an empty cell. -/
def extractTab (d : List (List (List String))) :
    List ((Nat × Nat × Nat) × String) :=
  (List.range d.length).flatMap (fun i =>
    (List.range (d.getD i []).length).flatMap (fun j =>
      ((List.range ((d.getD i []).getD j []).length).map (fun k =>
        ((i, j, k), ((d.getD i []).getD j []).getD k ""))).filter
          (fun x => !(x.2 == ""))))

/-- One past the largest first coordinate carrying a unit. -/
def supFst (u : List ((Nat × Nat × Nat) × String)) : Nat :=
  u.foldr (fun x acc => max (x.1.1 + 1) acc) 0

/-- One past the largest second coordinate carrying a unit under first
coordinate `i`. -/
def supSnd (u : List ((Nat × Nat × Nat) × String)) (i : Nat) : Nat :=
  u.foldr (fun x acc => if x.1.1 = i then max (x.1.2.1 + 1) acc else acc) 0

/-- One past the largest third coordinate carrying a unit under `(i, j)`. -/
def supThd (u : List ((Nat × Nat × Nat) × String)) (i j : Nat) : Nat :=
  u.foldr
    (fun x acc =>
      if x.1.1 = i ∧ x.1.2.1 = j then max (x.1.2.2 + 1) acc else acc) 0

/-- The text recorded for location `(i, j, k)` (empty when absent). -/
def textAt3 (u : List ((Nat × Nat × Nat) × String)) (i j k : Nat) : String :=
  ((u.find? (fun x => decide (x.1 = (i, j, k)))).map (·.2)).getD ""

/-- Modelled from the spec: three-level serialization shared by the
slide-deck and tabular handlers — re-emit every unit at its recorded
location, grouped by the original location hierarchy (spec §4.1, §4.4). -/
def build3 (u : List ((Nat × Nat × Nat) × String)) :
    List (List (List String)) :=
  (List.range (supFst u)).map (fun i =>
    (List.range (supSnd u i)).map (fun j =>
      (List.range (supThd u i j)).map (fun k => textAt3 u i j k)))

/-- A structurally valid raw document of one of the four supported
formats (spec §4.1): plain/markdown buffer, paginated document (pages of
text spans), slide deck (slides of shapes of text runs), or tabular
workbook (sheets of rows of cells, empty string = empty cell). -/
inductive RawDoc where
  | plain (s : String)
  | paginated (d : List (List String))
  | slides (d : List (List (List String)))
  | tabular (d : List (List (List String)))
deriving DecidableEq

/-- The four supported formats (spec §4.1). -/
inductive DocFormat where
  | plain
  | paginated
  | slides
  | tabular
deriving DecidableEq

/-- The format of a raw document. -/
def formatOf : RawDoc → DocFormat
  | .plain _ => .plain
  | .paginated _ => .paginated
  | .slides _ => .slides
  | .tabular _ => .tabular

/-- Uniform location type: (page/slide/sheet, span/shape/row, run/column),
with unused trailing coordinates fixed to 0. -/
abbrev Loc := Nat × Nat × Nat

/-- Modelled from the spec: `extract(rawBytes) → ContentModel` of the
handler for each format, as the ordered collection of (location, text)
pairs (spec §4.1, §3). -/
def extractDoc : RawDoc → List (Loc × String)
  | .plain s => (extractPlain s).map (fun p => ((p.1, 0, 0), p.2))
  | .paginated d => (extractPag d).map (fun p => ((p.1.1, p.1.2, 0), p.2))
  | .slides d => extractSlides d
  | .tabular d => extractTab d

/-- Modelled from the spec: `serialize(ContentModel) → rawBytes` of the
handler for each format (spec §4.1). -/
def serializeDoc : DocFormat → List (Loc × String) → RawDoc
  | .plain, u => .plain (serializePlain (u.map (fun p => (p.1.1, p.2))))
  | .paginated, u =>
    .paginated (buildPag (u.map (fun p => ((p.1.1, p.1.2.1), p.2))))
  | .slides, u => .slides (build3 u)
  | .tabular, u => .tabular (build3 u)

/- ======================================================================
   Lemmas about the polling loop
   ====================================================================== -/

theorem pollGo_timeout (env : Nat → QueryOutcome) :
    ∀ fuel c, (∀ i, c ≤ i → i < maxAttempts → goodResult (env i) = false) →
      pollGo env fuel c = .timeout := by
  intro fuel
  induction fuel with
  | zero => intro c _; rfl
  | succ n ih =>
    intro c h
    unfold pollGo
    by_cases hc : maxAttempts ≤ c
    · simp [hc]
    · have hg : goodResult (env c) = false :=
        h c le_rfl (Nat.lt_of_not_le hc)
      simp [hc, hg]
      exact ih (c + 1) (fun i hi hlt => h i (Nat.le_of_succ_le hi) hlt)

theorem pollGo_success (env : Nat → QueryOutcome) :
    ∀ fuel c i, c ≤ i → i < maxAttempts → maxAttempts - c ≤ fuel →
      goodResult (env i) = true →
      (∀ j, c ≤ j → j < i → goodResult (env j) = false) →
      pollGo env fuel c = .success (dataOf (env i)) i := by
  intro fuel
  induction fuel with
  | zero =>
    intro c i hci hi hfuel _ _
    omega
  | succ n ih =>
    intro c i hci hi hfuel hg hprev
    have hc : ¬ maxAttempts ≤ c := by omega
    unfold pollGo
    rcases Nat.lt_or_ge c i with hlt | hge
    · have hgc : goodResult (env c) = false := hprev c le_rfl hlt
      simp [hc, hgc]
      exact ih (c + 1) i hlt hi (by omega) hg
        (fun j hj hjlt => hprev j (Nat.le_of_succ_le hj) hjlt)
    · have hei : c = i := Nat.le_antisymm hci hge
      subst hei
      simp [hc, hg]

theorem pollQueriesGo_le (env : Nat → QueryOutcome) :
    ∀ fuel c, pollQueriesGo env fuel c ≤ fuel := by
  intro fuel
  induction fuel with
  | zero => intro c; exact Nat.le_refl 0
  | succ n ih =>
    intro c
    unfold pollQueriesGo
    by_cases hc : maxAttempts ≤ c
    · simp [hc]
    · by_cases hg : goodResult (env c) = true
      · simp [hc, hg]
      · simp [hc, hg]
        exact ih (c + 1)

theorem pollQueriesGo_success (env : Nat → QueryOutcome) :
    ∀ fuel c i, c ≤ i → i < maxAttempts → maxAttempts - c ≤ fuel →
      goodResult (env i) = true →
      (∀ j, c ≤ j → j < i → goodResult (env j) = false) →
      pollQueriesGo env fuel c = i + 1 - c := by
  intro fuel
  induction fuel with
  | zero =>
    intro c i hci hi hfuel _ _
    omega
  | succ n ih =>
    intro c i hci hi hfuel hg hprev
    have hc : ¬ maxAttempts ≤ c := by omega
    unfold pollQueriesGo
    rcases Nat.lt_or_ge c i with hlt | hge
    · have hgc : goodResult (env c) = false := hprev c le_rfl hlt
      simp [hc, hgc]
      have := ih (c + 1) i hlt hi (by omega) hg
        (fun j hj hjlt => hprev j (Nat.le_of_succ_le hj) hjlt)
      omega
    · have hei : c = i := Nat.le_antisymm hci hge
      subst hei
      simp [hc, hg]

/- ======================================================================
   Claim C10: termination and bounds of the polling loop
   ====================================================================== -/

/-- C10: every invocation of the delta-table polling loop terminates:
`pollForResults` makes at most 30 query attempts, stops as soon as a
query returns success with a non-empty data array, and otherwise stops
with an error message once `attemptCount` reaches 30. -/
theorem pollForResults_terminates (env : Nat → QueryOutcome) :
    pollQueries env 0 ≤ maxAttempts ∧
    ((∀ i, i < maxAttempts → goodResult (env i) = false) →
      pollForResults env 0 = .timeout ∧ pollQueries env 0 = maxAttempts) ∧
    (∀ i, i < maxAttempts → goodResult (env i) = true →
      (∀ j, j < i → goodResult (env j) = false) →
      pollForResults env 0 = .success (dataOf (env i)) i ∧
        pollQueries env 0 = i + 1) := by
  refine ⟨?_, ?_, ?_⟩
  · exact pollQueriesGo_le env (maxAttempts - 0) 0
  · intro h
    constructor
    · exact pollGo_timeout env (maxAttempts - 0) 0 (fun i _ => h i)
    · have h30 : pollQueriesGo env 30 0 = 30 := by
        have : ∀ fuel c, fuel + c = maxAttempts →
            (∀ i, i < maxAttempts → goodResult (env i) = false) →
            pollQueriesGo env fuel c = fuel := by
          intro fuel
          induction fuel with
          | zero => intro c _ _; rfl
          | succ n ih =>
            intro c hsum hall
            have hc : ¬ maxAttempts ≤ c := by omega
            have hg : goodResult (env c) = false := hall c (by omega)
            unfold pollQueriesGo
            simp [hc, hg]
            exact ih (c + 1) (by omega) hall
        exact this 30 0 (by decide) h
      exact h30
  · intro i hi hg hprev
    exact ⟨pollGo_success env (maxAttempts - 0) 0 i (Nat.zero_le i) hi
        (by omega) hg (fun j _ hj => hprev j hj),
      pollQueriesGo_success env (maxAttempts - 0) 0 i (Nat.zero_le i) hi
        (by omega) hg (fun j _ hj => hprev j hj)⟩

/-- Witness for C10 at a concrete environment: the third query succeeds,
the loop stops there having issued exactly 3 queries. -/
theorem pollForResults_terminates_witness :
    (2 < maxAttempts ∧
      goodResult ((fun i => if i = 2 then QueryOutcome.ok true ["row"]
        else QueryOutcome.exn) 2) = true) ∧
    pollForResults
        (fun i => if i = 2 then QueryOutcome.ok true ["row"]
          else QueryOutcome.exn) 0
      = .success ["row"] 2 ∧
    pollQueries
        (fun i => if i = 2 then QueryOutcome.ok true ["row"]
          else QueryOutcome.exn) 0 = 3 := by
  refine ⟨⟨by decide, by decide⟩, ?_⟩
  have h := (pollForResults_terminates
    (fun i => if i = 2 then QueryOutcome.ok true ["row"]
      else QueryOutcome.exn)).2.2 2 (by decide) (by decide)
    (fun j hj => by interval_cases j <;> decide)
  exact h

/- ======================================================================
   Claim C7: expiry and late results
   ====================================================================== -/

/-- C7: when the backing extraction yields nothing during the 30 polling
attempts, the loop gives up (the job is expired); if the backing work
completes at some later time `t`, a subsequent `queryDeltaTableResults`
call at `t` still surfaces the late result — expiry never hides a result
that later becomes available. -/
theorem poll_expiry_late_result (env : Nat → QueryOutcome)
    (t : Nat) (d : List String)
    (hwin : ∀ i, i < maxAttempts → goodResult (env i) = false)
    (_hlate : maxAttempts ≤ t) (ht : env t = .ok true d) :
    pollForResults env 0 = .timeout ∧
    queryDeltaTableResults env t = some d := by
  constructor
  · exact pollGo_timeout env (maxAttempts - 0) 0 (fun i _ => hwin i)
  · simp [queryDeltaTableResults, ht]

/-- Witness for C7: the table is empty for the whole polling window and
gains a row at time 30; the loop times out, yet the subsequent query
surfaces the row. -/
theorem poll_expiry_late_result_witness :
    ((∀ i, i < maxAttempts →
        goodResult ((fun i => if i < 30 then QueryOutcome.ok true []
          else QueryOutcome.ok true ["late row"]) i) = false) ∧
      maxAttempts ≤ 30 ∧
      (fun i => if i < 30 then QueryOutcome.ok true []
        else QueryOutcome.ok true ["late row"]) 30
        = QueryOutcome.ok true ["late row"]) ∧
    pollForResults
        (fun i => if i < 30 then QueryOutcome.ok true []
          else QueryOutcome.ok true ["late row"]) 0 = .timeout ∧
    queryDeltaTableResults
        (fun i => if i < 30 then QueryOutcome.ok true []
          else QueryOutcome.ok true ["late row"]) 30
      = some ["late row"] := by
  refine ⟨⟨?_, by decide, by decide⟩, ?_⟩
  · intro i hi
    simp only [maxAttempts] at hi
    interval_cases i <;> decide
  · exact poll_expiry_late_result _ 30 ["late row"]
      (fun i hi => by simp only [maxAttempts] at hi; interval_cases i <;> decide)
      (by decide) (by decide)

/- ======================================================================
   Lemmas about the batch loop, and claims C3 / C4
   ====================================================================== -/

theorem redactLoop_skip (env : BatchEnv) (p : String) (rest : List String)
    (h : processOne env p = .ok none) :
    redactLoop env (p :: rest) = redactLoop env rest := by
  simp [redactLoop, h]

theorem redactLoop_error (env : BatchEnv) :
    ∀ (pre : List String) (p : String) (post : List String)
      (rs : List FileResult) (e : String),
      redactLoop env pre = .ok rs → processOne env p = .error e →
      redactLoop env (pre ++ p :: post) = .error e := by
  intro pre
  induction pre with
  | nil =>
    intro p post rs e _ hp
    simp [redactLoop, hp]
  | cons q pre' ih =>
    intro p post rs e hpre hp
    rcases hq : processOne env q with eq | oq
    · rw [redactLoop, hq] at hpre
      exact absurd hpre (by simp)
    · rcases oq with _ | r
      · rw [redactLoop, hq] at hpre
        rw [List.cons_append, redactLoop, hq]
        exact ih p post rs e hpre hp
      · rw [redactLoop, hq] at hpre
        rcases hpre' : redactLoop env pre' with e' | rs'
        · rw [hpre'] at hpre
          exact absurd hpre (by simp [Except.map])
        · rw [List.cons_append, redactLoop, hq]
          rw [ih p post rs' e hpre' hp]
          rfl

/-- C3 counterexample: a batch of three markdown documents where the
second one's redaction raises; `redact_documents` returns a single
all-or-nothing HTTP 500 error (`.error`), so the caller receives no
per-document results at all — contradicting both "exactly one result per
input document" and "never aborts the sibling documents". -/
theorem batch_abort_counterexample :
    redactDocuments envBatch ["a.md", "b.md", "c.md"]
      = .error "corrupted bytes" := rfl

/-- C3 as amended: an exception raised while redacting any document of a
batch aborts the whole batch — `redact_documents` returns a single HTTP
500 error and every accumulated sibling result is discarded; callers do
not receive one result per input document. -/
theorem batch_abort (env : BatchEnv) (pre : List String) (p : String)
    (post : List String) (rs : List FileResult) (e : String)
    (hpre : redactLoop env pre = .ok rs)
    (hp : processOne env p = .error e) :
    redactDocuments env (pre ++ p :: post) = .error e := by
  have hne : (pre ++ p :: post).isEmpty = false := by
    cases pre <;> rfl
  rw [redactDocuments, hne]
  simp only [Bool.false_eq_true, if_false]
  exact redactLoop_error env pre p post rs e hpre hp

/-- Witness for C3 (amended) at the concrete batch: the first document
redacts fine, the second raises, and the whole batch comes back as one
error. -/
theorem batch_abort_witness :
    (redactLoop envBatch ["a.md"]
        = .ok [⟨"a.md", "a.md_redacted", 1, "redacted", "markdown"⟩] ∧
      processOne envBatch "b.md" = .error "corrupted bytes") ∧
    redactDocuments envBatch ["a.md", "b.md", "c.md"]
      = .error "corrupted bytes" := by
  refine ⟨⟨rfl, rfl⟩, ?_⟩
  exact batch_abort envBatch ["a.md"] "b.md" ["c.md"]
    [⟨"a.md", "a.md_redacted", 1, "redacted", "markdown"⟩]
    "corrupted bytes" rfl rfl

/-- C4 counterexample: a `.zip` input resolves to no registered handler;
`redact_documents` does not return a per-document result with
`status = unsupported_format` — it returns an empty `redacted_files`
list, the document having been silently skipped by `continue`. -/
theorem unsupported_skip_counterexample :
    redactDocuments envBatch ["archive.zip"] = .ok [] := rfl

/-- C4 as amended: an input whose filename resolves to no registered
handler is silently skipped — it contributes no entry to
`redacted_files` (there is no `unsupported_format` status in the code)
and raises no error, leaving the remaining documents' processing
unchanged. -/
theorem unsupported_skip (env : BatchEnv) (p : String) (rest : List String)
    (h : hasHandler (detectFileFormat p) = false) :
    redactLoop env (p :: rest) = redactLoop env rest := by
  have hp : processOne env p = .ok none := by
    rw [processOne, h]
    simp
  exact redactLoop_skip env p rest hp

/-- Witness for C4 (amended): `archive.zip` has no handler and is
skipped, so a batch consisting only of it yields the empty result list
without an error. -/
theorem unsupported_skip_witness :
    hasHandler (detectFileFormat "archive.zip") = false ∧
    redactLoop envBatch ["archive.zip"] = redactLoop envBatch [] ∧
    redactLoop envBatch ["archive.zip"] = .ok [] := by
  refine ⟨by decide, ?_, rfl⟩
  exact unsupported_skip envBatch "archive.zip" [] (by decide)

/- ======================================================================
   Claim C8: can_handle extension/MIME precedence
   ====================================================================== -/

/-- C8: for every handler, `can_handle` is the disjunction of the
extension test and the declared-MIME test: it matches by extension first;
a positive extension match determines the result regardless of the MIME
type (extension precedence on conflict); and only when the extension does
not match does the result fall back to the MIME-type match. -/
theorem canHandle_ext_precedence (h : Handler) (f t : String) :
    canHandle h f t = (extMatch h f || mimeMatch h t) ∧
    (extMatch h f = true → canHandle h f t = true) ∧
    (extMatch h f = false → canHandle h f t = mimeMatch h t) := by
  refine ⟨?_, ?_, ?_⟩
  · cases h <;> rfl
  · intro he
    cases h <;> simp_all [canHandle, extMatch]
  · intro he
    cases h <;> simp_all [canHandle, extMatch, mimeMatch]

/-- Witness for C8: `Report.MD` with a conflicting declared MIME type is
still accepted by the markdown handler (extension wins), and a
non-matching extension falls back to the MIME type. -/
theorem canHandle_ext_precedence_witness :
    (extMatch .markdown "Report.MD" = true ∧
      mimeMatch .markdown "application/zip" = false ∧
      canHandle .markdown "Report.MD" "application/zip" = true) ∧
    (extMatch .markdown "notes.txt" = false ∧
      canHandle .markdown "notes.txt" "text/markdown"
        = mimeMatch .markdown "text/markdown") := by
  constructor
  · exact ⟨by decide, by decide,
      (canHandle_ext_precedence .markdown "Report.MD" "application/zip").2.1
        (by decide)⟩
  · exact ⟨by decide,
      (canHandle_ext_precedence .markdown "notes.txt" "text/markdown").2.2
        (by decide)⟩

/- ======================================================================
   Claim C6: idempotent job submission
   ====================================================================== -/

/-- C6: submitting a documentId whose job is already `pending` returns the
existing job's handle and leaves the orchestrator state untouched (no
duplicate job, no second backing extraction); consequently submitting
twice has exactly the same effect on the job map — and on the count of
started backing extractions — as submitting once. -/
theorem submitJob_pending (s : Orch) (id : String)
    (h : lookupJob id s.jobs = some .pending) : submitJob s id = (id, s) := by
  rw [submitJob, h]

theorem lookupJob_cons_self (id : String) (jobs : List (String × JobState)) :
    lookupJob id ((id, JobState.pending) :: jobs) = some JobState.pending := by
  simp [lookupJob, List.find?]

theorem submitJob_idempotent (s : Orch) (id : String) :
    (lookupJob id s.jobs = some .pending → submitJob s id = (id, s)) ∧
    submitJob (submitJob s id).2 id = submitJob s id := by
  refine ⟨submitJob_pending s id, ?_⟩
  rcases h : lookupJob id s.jobs with _ | st
  · have hsub : submitJob s id
        = (id, ⟨(id, JobState.pending) :: s.jobs, s.started + 1⟩) := by
      rw [submitJob, h]
    rw [hsub]
    exact submitJob_pending _ id (lookupJob_cons_self id s.jobs)
  · cases st
    case pending =>
      rw [submitJob_pending s id h]
      exact submitJob_pending s id h
    all_goals
      have hsub : submitJob s id
          = (id, ⟨(id, JobState.pending) :: s.jobs, s.started + 1⟩) := by
        rw [submitJob, h]
      rw [hsub]
      exact submitJob_pending _ id (lookupJob_cons_self id s.jobs)

/-- Witness for C6: with `doc1` already pending, `submit` returns the
existing handle and an unchanged state; a fresh double submission starts
exactly one backing extraction. -/
theorem submitJob_idempotent_witness :
    lookupJob "doc1" (Orch.mk [("doc1", .pending)] 1).jobs
      = some .pending ∧
    submitJob ⟨[("doc1", .pending)], 1⟩ "doc1"
      = ("doc1", ⟨[("doc1", .pending)], 1⟩) ∧
    submitJob (submitJob ⟨[], 0⟩ "doc1").2 "doc1"
      = submitJob ⟨[], 0⟩ "doc1" := by
  refine ⟨by decide, ?_, ?_⟩
  · exact (submitJob_idempotent ⟨[("doc1", .pending)], 1⟩ "doc1").1 (by decide)
  · exact (submitJob_idempotent ⟨[], 0⟩ "doc1").2

/- ======================================================================
   Lemmas about substitution when no key occurs
   ====================================================================== -/

theorem strFind_eq_none (k s : List Char) (h : occursIn k s = false) :
    strFind k s = none := by
  unfold occursIn at h
  rcases hf : strFind k s with _ | i
  · rfl
  · rw [hf] at h
    simp at h

theorem splitOnKeyGo_no_occur (k : List Char) (fuel : Nat) (s : List Char)
    (h : occursIn k s = false) : splitOnKeyGo k fuel s = [s] := by
  cases fuel with
  | zero => rfl
  | succ n =>
    unfold splitOnKeyGo
    rw [strFind_eq_none k s h]

theorem replaceInSeg_no_occur (k v s : List Char)
    (h : occursIn k s = false) : replaceInSeg k v (.raw s) = [.raw s] := by
  have hd : replaceInSeg k v (.raw s)
      = ((splitOnKey k s).map Seg.raw).intersperse (Seg.tok v) := rfl
  rw [hd, splitOnKey, splitOnKeyGo_no_occur k s.length s h]
  rfl

theorem replaceKeySegs_no_occur (k v s : List Char)
    (h : occursIn k s = false) :
    replaceKeySegs k v [.raw s] = [.raw s] := by
  unfold replaceKeySegs
  rw [List.map_cons, List.map_nil, replaceInSeg_no_occur k v s h]
  rfl

theorem segsHaveKey_raw (k s : List Char) :
    segsHaveKey k [.raw s] = occursIn k s := by
  simp [segsHaveKey]

theorem applyKeysH_no_occur (ks : List (String × String)) (s : List Char)
    (h : ∀ p ∈ ks, occursIn p.1.data s = false) :
    applyKeysH ks [.raw s] = ([.raw s], []) := by
  induction ks with
  | nil => rfl
  | cons kv rest ih =>
    rcases kv with ⟨k, v⟩
    have hk : occursIn k.data s = false := h (k, v) (List.mem_cons_self _ _)
    rw [applyKeysH]
    rw [replaceKeySegs_no_occur k.data v.data s hk]
    rw [ih (fun p hp => h p (List.mem_cons_of_mem _ hp))]
    rw [segsHaveKey_raw, hk]
    rfl

theorem mem_sortEntityMap (m : EntityMap) (p : String × String) :
    p ∈ sortEntityMap m ↔ p ∈ m :=
  (List.perm_insertionSort keyRel m).mem_iff

/-- When no key of `m` occurs in any extracted unit's text, the engine
reports `no_entities_found` with zero applied entities and returns the
input bytes unchanged (spec §4.3 step 6). -/
theorem redactEngine_no_occur (x : String) (m : EntityMap)
    (h : ∀ k v, (k, v) ∈ m → ∀ u ∈ extractPlain x,
      occursIn k.data u.2.data = false) :
    redactEngine x m = (x, ⟨0, [], .no_entities_found⟩) := by
  have happ : engineApplied x (sortEntityMap m) = [] := by
    unfold engineApplied
    rw [List.filter_eq_nil_iff]
    intro k hk
    rw [List.any_eq_true]
    rintro ⟨q, hq, hkq⟩
    unfold engineProcessed at hq
    rcases List.mem_map.mp hq with ⟨u, hu, rfl⟩
    rcases List.mem_map.mp hk with ⟨⟨k', v'⟩, hk', rfl⟩
    have hnone : ∀ p ∈ sortEntityMap m, occursIn p.1.data u.2.data = false := by
      intro p hp
      exact h p.1 p.2 ((mem_sortEntityMap m p).mp hp) u hu
    rw [applyKeysH_no_occur (sortEntityMap m) u.2.data hnone] at hkq
    simp at hkq
  rw [redactEngine, happ]
  rfl

/- ======================================================================
   Claim C5: no-match no-op
   ====================================================================== -/

/-- C5: for every document and every EntityMap none of whose keys occurs
in any extracted ContentUnit's text, the engine returns
`status = no_entities_found` and output bytes byte-identical to the
input. -/
theorem redact_no_match_noop (x : String) (m : EntityMap)
    (h : ∀ k v, (k, v) ∈ m → ∀ u ∈ extractPlain x,
      occursIn k.data u.2.data = false) :
    (redactEngine x m).1 = x ∧
    (redactEngine x m).2.status = .no_entities_found := by
  rw [redactEngine_no_occur x m h]
  exact ⟨rfl, rfl⟩

/-- Witness for C5: the EntityMap `{"Nonexistent": "[X]"}` matches nothing
in `"hello world"`; output equals input and the status is
`no_entities_found`. -/
theorem redact_no_match_noop_witness :
    (∀ k v, (k, v) ∈ ([("Nonexistent", "[X]")] : EntityMap) →
      ∀ u ∈ extractPlain "hello world", occursIn k.data u.2.data = false) ∧
    (redactEngine "hello world" [("Nonexistent", "[X]")]).1 = "hello world" ∧
    (redactEngine "hello world" [("Nonexistent", "[X]")]).2.status
      = .no_entities_found := by
  have hyp : ∀ k v, (k, v) ∈ ([("Nonexistent", "[X]")] : EntityMap) →
      ∀ u ∈ extractPlain "hello world", occursIn k.data u.2.data = false := by
    intro k v hkv
    simp only [List.mem_singleton, Prod.mk.injEq] at hkv
    obtain ⟨rfl, rfl⟩ := hkv
    decide
  exact ⟨hyp, redact_no_match_noop "hello world" [("Nonexistent", "[X]")] hyp⟩

/- ======================================================================
   Claim C1: idempotence of redaction
   ====================================================================== -/

/-- C1 counterexample: with `M = {"a": "[a]"}` (the replacement token
contains the key) and input `"a"`, the first redaction yields `"[a]"` but
re-running redact on that output yields `"[[a]]"` — double-bracketing —
so `redact(redact(x, M).bytes, M)` differs from `redact(x, M)`: redaction
is not idempotent for every EntityMap. -/
theorem redact_not_idempotent_counterexample :
    (redactEngine (redactEngine "a" [("a", "[a]")]).1 [("a", "[a]")]).1
      ≠ (redactEngine "a" [("a", "[a]")]).1 := by
  decide

/-- C1 as amended: within a single redact pass replacement output is inert,
but a second pass rescans the whole document, so idempotence holds exactly
when no EntityMap key occurs in the first pass's output (in particular the
original entity text no longer appears and no replacement token contains
or recreates a key): under that condition re-running redact with the same
EntityMap returns the already-redacted bytes unchanged. -/
theorem redact_idempotent_on_clean_output (x : String) (m : EntityMap)
    (h : ∀ k v, (k, v) ∈ m → ∀ u ∈ extractPlain (redactEngine x m).1,
      occursIn k.data u.2.data = false) :
    (redactEngine (redactEngine x m).1 m).1 = (redactEngine x m).1 := by
  rw [redactEngine_no_occur (redactEngine x m).1 m h]

/-- Witness for C1 (amended): `M = {"Bob": "[NAME]"}` on `"Bob met Eve"`
produces `"[NAME] met Eve"`, in which no key occurs, so the second
redaction leaves the bytes unchanged. -/
theorem redact_idempotent_on_clean_output_witness :
    (∀ k v, (k, v) ∈ ([("Bob", "[NAME]")] : EntityMap) →
      ∀ u ∈ extractPlain (redactEngine "Bob met Eve" [("Bob", "[NAME]")]).1,
        occursIn k.data u.2.data = false) ∧
    (redactEngine (redactEngine "Bob met Eve" [("Bob", "[NAME]")]).1
        [("Bob", "[NAME]")]).1
      = (redactEngine "Bob met Eve" [("Bob", "[NAME]")]).1 := by
  have hyp : ∀ k v, (k, v) ∈ ([("Bob", "[NAME]")] : EntityMap) →
      ∀ u ∈ extractPlain (redactEngine "Bob met Eve" [("Bob", "[NAME]")]).1,
        occursIn k.data u.2.data = false := by
    intro k v hkv
    simp only [List.mem_singleton, Prod.mk.injEq] at hkv
    obtain ⟨rfl, rfl⟩ := hkv
    decide
  exact ⟨hyp,
    redact_idempotent_on_clean_output "Bob met Eve" [("Bob", "[NAME]")] hyp⟩

/- ======================================================================
   Claim C2: sorted substitution order and order-independence
   ====================================================================== -/

theorem keyRel_key_eq {a b : String × String}
    (h₁ : keyRel a b) (h₂ : keyRel b a) : a.1 = b.1 := by
  rcases h₁ with h | ⟨e, le₁⟩
  · rcases h₂ with h' | ⟨e', _⟩
    · omega
    · omega
  · rcases h₂ with h' | ⟨_, le₂⟩
    · omega
    · exact le_antisymm le₁ le₂

theorem sorted_perm_eq : ∀ (l₁ l₂ : EntityMap), l₁.Perm l₂ →
    List.Sorted keyRel l₁ → List.Sorted keyRel l₂ →
    (l₁.map Prod.fst).Nodup → l₁ = l₂ := by
  intro l₁
  induction l₁ with
  | nil =>
    intro l₂ hp _ _ _
    exact (hp.symm.eq_nil).symm
  | cons a t₁ ih =>
    intro l₂ hp hs₁ hs₂ hnd
    cases l₂ with
    | nil => exact absurd hp.eq_nil (by simp)
    | cons b t₂ =>
      rcases List.sorted_cons.mp hs₁ with ⟨ha, hs₁'⟩
      rcases List.sorted_cons.mp hs₂ with ⟨hb, hs₂'⟩
      by_cases hab : a = b
      · subst hab
        have hnd' : (t₁.map Prod.fst).Nodup := by
          rw [List.map_cons] at hnd
          exact (List.nodup_cons.mp hnd).2
        rw [ih t₂ hp.cons_inv hs₁' hs₂' hnd']
      · have hain : a ∈ b :: t₂ := hp.subset (List.mem_cons_self a t₁)
        have hbin : b ∈ a :: t₁ := hp.symm.subset (List.mem_cons_self b t₂)
        have hat₂ : a ∈ t₂ := by
          rcases List.mem_cons.mp hain with h | h
          · exact absurd h hab
          · exact h
        have hbt₁ : b ∈ t₁ := by
          rcases List.mem_cons.mp hbin with h | h
          · exact absurd h.symm hab
          · exact h
        have hkey : a.1 = b.1 := keyRel_key_eq (ha b hbt₁) (hb a hat₂)
        rw [List.map_cons] at hnd
        have hnin : a.1 ∉ t₁.map Prod.fst := (List.nodup_cons.mp hnd).1
        exact absurd (hkey ▸ List.mem_map_of_mem Prod.fst hbt₁) hnin

/-- C2: the engine imposes the descending-length, lexicographically
tie-broken key order before substitution, so for every EntityMap with
unique keys the substitution result on any unit text is independent of the
map's iteration order; and on the spec's concrete example
`{"Coca Cola": "[CLIENT]", "Cola": "[PRODUCT]"}` applied to
"Coca Cola Inc." the result is "[CLIENT] Inc.", never "[PRODUCT] Inc.". -/
theorem substUnit_order_independent (m m' : EntityMap) (t : String)
    (hperm : m.Perm m') (hnd : (m.map Prod.fst).Nodup) :
    substUnit m t = substUnit m' t ∧
    substUnit [("Coca Cola", "[CLIENT]"), ("Cola", "[PRODUCT]")]
      "Coca Cola Inc." = "[CLIENT] Inc." := by
  constructor
  · have hsort : sortEntityMap m = sortEntityMap m' := by
      apply sorted_perm_eq
      · exact (List.perm_insertionSort keyRel m).trans
          (hperm.trans (List.perm_insertionSort keyRel m').symm)
      · exact List.sorted_insertionSort keyRel m
      · exact List.sorted_insertionSort keyRel m'
      · exact ((List.perm_insertionSort keyRel m).map Prod.fst).nodup_iff.mpr hnd
    rw [substUnit, substUnit, hsort]
  · decide

/-- Witness for C2: the two orderings of the Coca-Cola EntityMap are
permutations with unique keys and give the same substitution result. -/
theorem substUnit_order_independent_witness :
    (List.Perm
        ([("Coca Cola", "[CLIENT]"), ("Cola", "[PRODUCT]")] : EntityMap)
        [("Cola", "[PRODUCT]"), ("Coca Cola", "[CLIENT]")] ∧
      (([("Coca Cola", "[CLIENT]"), ("Cola", "[PRODUCT]")] : EntityMap).map
        Prod.fst).Nodup) ∧
    substUnit [("Coca Cola", "[CLIENT]"), ("Cola", "[PRODUCT]")]
        "Coca Cola Inc."
      = substUnit [("Cola", "[PRODUCT]"), ("Coca Cola", "[CLIENT]")]
        "Coca Cola Inc." ∧
    substUnit [("Coca Cola", "[CLIENT]"), ("Cola", "[PRODUCT]")]
        "Coca Cola Inc." = "[CLIENT] Inc." := by
  have hperm : List.Perm
      ([("Coca Cola", "[CLIENT]"), ("Cola", "[PRODUCT]")] : EntityMap)
      [("Cola", "[PRODUCT]"), ("Coca Cola", "[CLIENT]")] :=
    List.Perm.swap _ _ _
  have hnd : (([("Coca Cola", "[CLIENT]"), ("Cola", "[PRODUCT]")] :
      EntityMap).map Prod.fst).Nodup := by decide
  have h := substUnit_order_independent
    [("Coca Cola", "[CLIENT]"), ("Cola", "[PRODUCT]")]
    [("Cola", "[PRODUCT]"), ("Coca Cola", "[CLIENT]")]
    "Coca Cola Inc." hperm hnd
  exact ⟨⟨hperm, hnd⟩, h.1, h.2⟩

/- ======================================================================
   Round-trip lemmas: generic list helpers
   ====================================================================== -/

theorem getD_range_map {α : Type} (f : Nat → α) {n i : Nat} (hi : i < n)
    (dflt : α) : ((List.range n).map f).getD i dflt = f i := by
  rw [List.getD_eq_getElem?_getD, List.getElem?_map, List.getElem?_range hi]
  rfl

theorem flatMap_congr {α β : Type} {l : List α} {f g : α → List β}
    (h : ∀ a ∈ l, f a = g a) : l.flatMap f = l.flatMap g := by
  induction l with
  | nil => rfl
  | cons a t ih =>
    rw [List.flatMap_cons, List.flatMap_cons,
      h a (List.mem_cons_self a t),
      ih (fun x hx => h x (List.mem_cons_of_mem a hx))]

theorem flatMap_range_split {α : Type} {P L : Nat} (F : Nat → List α)
    (hPL : P ≤ L) (hnil : ∀ i, P ≤ i → i < L → F i = []) :
    (List.range L).flatMap F = (List.range P).flatMap F := by
  have hL : L = P + (L - P) := (Nat.add_sub_cancel' hPL).symm
  rw [hL, List.range_add, List.flatMap_append, List.flatMap_map]
  have : (List.range (L - P)).flatMap (fun a => F (P + a)) = [] := by
    apply List.flatMap_eq_nil_iff.mpr
    intro i hi
    rw [List.mem_range] at hi
    exact hnil (P + i) (Nat.le_add_right P i) (by omega)
  rw [this, List.append_nil]

/- ======================================================================
   Round-trip for the paginated format
   ====================================================================== -/

theorem mem_extractPag {d : List (List String)} {x : (Nat × Nat) × String} :
    x ∈ extractPag d ↔
      x.1.1 < d.length ∧ x.1.2 < (d.getD x.1.1 []).length ∧
        x.2 = (d.getD x.1.1 []).getD x.1.2 "" := by
  unfold extractPag
  rw [List.mem_flatMap]
  constructor
  · rintro ⟨i, hi, hx⟩
    rw [List.mem_map] at hx
    rcases hx with ⟨j, hj, rfl⟩
    rw [List.mem_range] at hi hj
    exact ⟨hi, hj, rfl⟩
  · rintro ⟨h1, h2, h3⟩
    refine ⟨x.1.1, List.mem_range.mpr h1, ?_⟩
    rw [List.mem_map]
    refine ⟨x.1.2, List.mem_range.mpr h2, ?_⟩
    rcases x with ⟨⟨i, j⟩, s⟩
    simp only at h3 ⊢
    rw [h3]

theorem supPage_le {u : List ((Nat × Nat) × String)} {B : Nat}
    (h : ∀ x ∈ u, x.1.1 < B) : supPage u ≤ B := by
  induction u with
  | nil => exact Nat.zero_le B
  | cons a t ih =>
    have hr : supPage (a :: t) = max (a.1.1 + 1) (supPage t) := rfl
    rw [hr]
    exact max_le (h a (List.mem_cons_self a t))
      (ih (fun x hx => h x (List.mem_cons_of_mem a hx)))

theorem lt_supPage {u : List ((Nat × Nat) × String)} {x : (Nat × Nat) × String}
    (hx : x ∈ u) : x.1.1 < supPage u := by
  induction u with
  | nil => cases hx
  | cons a t ih =>
    have hr : supPage (a :: t) = max (a.1.1 + 1) (supPage t) := rfl
    rw [hr]
    rcases List.mem_cons.mp hx with rfl | hx'
    · exact Nat.lt_of_lt_of_le (Nat.lt_succ_self _) (le_max_left _ _)
    · exact Nat.lt_of_lt_of_le (ih hx') (le_max_right _ _)

theorem supSpan_le {u : List ((Nat × Nat) × String)} {i B : Nat}
    (h : ∀ x ∈ u, x.1.1 = i → x.1.2 < B) : supSpan u i ≤ B := by
  induction u with
  | nil => exact Nat.zero_le B
  | cons a t ih =>
    have hr : supSpan (a :: t) i
        = if a.1.1 = i then max (a.1.2 + 1) (supSpan t i) else supSpan t i := rfl
    rw [hr]
    by_cases he : a.1.1 = i
    · rw [if_pos he]
      exact max_le (h a (List.mem_cons_self a t) he)
        (ih (fun x hx => h x (List.mem_cons_of_mem a hx)))
    · rw [if_neg he]
      exact ih (fun x hx => h x (List.mem_cons_of_mem a hx))

theorem lt_supSpan {u : List ((Nat × Nat) × String)} {x : (Nat × Nat) × String}
    (hx : x ∈ u) : x.1.2 < supSpan u x.1.1 := by
  induction u with
  | nil => cases hx
  | cons a t ih =>
    rcases List.mem_cons.mp hx with rfl | hx'
    · have hr : supSpan (x :: t) x.1.1
          = if x.1.1 = x.1.1 then max (x.1.2 + 1) (supSpan t x.1.1)
            else supSpan t x.1.1 := rfl
      rw [hr, if_pos rfl]
      exact Nat.lt_of_lt_of_le (Nat.lt_succ_self _) (le_max_left _ _)
    · have hle : supSpan t x.1.1 ≤ supSpan (a :: t) x.1.1 := by
        have hr : supSpan (a :: t) x.1.1
            = if a.1.1 = x.1.1 then max (a.1.2 + 1) (supSpan t x.1.1)
              else supSpan t x.1.1 := rfl
        rw [hr]
        by_cases he : a.1.1 = x.1.1
        · rw [if_pos he]; exact le_max_right _ _
        · rw [if_neg he]
      exact Nat.lt_of_lt_of_le (ih hx') hle

theorem supSpan_extractPag (d : List (List String)) (i : Nat) :
    supSpan (extractPag d) i = (d.getD i []).length := by
  apply le_antisymm
  · apply supSpan_le
    intro x hx he
    have := (mem_extractPag.mp hx).2.1
    rw [he] at this
    exact this
  · by_cases hl : (d.getD i []).length = 0
    · rw [hl]; exact Nat.zero_le _
    · have hpos : 0 < (d.getD i []).length := Nat.pos_of_ne_zero hl
      have hid : i < d.length := by
        by_contra hni
        rw [List.getD_eq_default _ _ (Nat.le_of_not_lt hni)] at hpos
        exact absurd hpos (by simp)
      have hmem : ((i, (d.getD i []).length - 1),
          (d.getD i []).getD ((d.getD i []).length - 1) "") ∈ extractPag d :=
        mem_extractPag.mpr ⟨hid, Nat.sub_lt hpos Nat.one_pos, rfl⟩
      have h2 : (d.getD i []).length - 1 < supSpan (extractPag d) i :=
        lt_supSpan hmem
      omega

theorem supPage_extractPag_le (d : List (List String)) :
    supPage (extractPag d) ≤ d.length :=
  supPage_le (fun _ hx => (mem_extractPag.mp hx).1)

theorem row_empty_of_supPage_le (d : List (List String)) (i : Nat)
    (h : supPage (extractPag d) ≤ i) : (d.getD i []).length = 0 := by
  by_contra hl
  have hpos : 0 < (d.getD i []).length := Nat.pos_of_ne_zero hl
  have hid : i < d.length := by
    by_contra hni
    rw [List.getD_eq_default _ _ (Nat.le_of_not_lt hni)] at hpos
    exact absurd hpos (by simp)
  have hmem : ((i, 0), (d.getD i []).getD 0 "") ∈ extractPag d :=
    mem_extractPag.mpr ⟨hid, hpos, rfl⟩
  have h2 : i < supPage (extractPag d) := lt_supPage hmem
  omega

theorem textAtPag_extractPag (d : List (List String)) {i j : Nat}
    (hi : i < d.length) (hj : j < (d.getD i []).length) :
    textAtPag (extractPag d) i j = (d.getD i []).getD j "" := by
  have hmem : ((i, j), (d.getD i []).getD j "") ∈ extractPag d :=
    mem_extractPag.mpr ⟨hi, hj, rfl⟩
  have hsome : ((extractPag d).find? (fun x => decide (x.1 = (i, j)))).isSome := by
    rw [List.find?_isSome]
    exact ⟨_, hmem, by simp⟩
  rcases Option.isSome_iff_exists.mp hsome with ⟨y, hy⟩
  have hyp : y.1 = (i, j) := by
    have := List.find?_some hy
    simpa using this
  have hymem := mem_extractPag.mp (List.mem_of_find?_eq_some hy)
  rcases hymem with ⟨_, _, h3⟩
  rw [hyp] at h3
  unfold textAtPag
  rw [hy]
  simpa using h3

theorem extractPag_buildPag (u : List ((Nat × Nat) × String)) :
    extractPag (buildPag u)
      = (List.range (supPage u)).flatMap
          (fun i => (List.range (supSpan u i)).map
            (fun j => ((i, j), textAtPag u i j))) := by
  have hlen : (buildPag u).length = supPage u := by
    rw [buildPag, List.length_map, List.length_range]
  have hrow : ∀ i, i < supPage u →
      (buildPag u).getD i []
        = (List.range (supSpan u i)).map (fun j => textAtPag u i j) := by
    intro i hi
    rw [buildPag]
    exact getD_range_map _ hi _
  have base : extractPag (buildPag u)
      = (List.range (buildPag u).length).flatMap
          (fun i => (List.range ((buildPag u).getD i []).length).map
            (fun j => ((i, j), ((buildPag u).getD i []).getD j ""))) := rfl
  rw [base, hlen]
  apply flatMap_congr
  intro i hi
  rw [List.mem_range] at hi
  rw [hrow i hi, List.length_map, List.length_range]
  apply List.map_congr_left
  intro j hj
  rw [List.mem_range] at hj
  rw [getD_range_map _ hj]

/-- Round-trip of the paginated handler: serializing an untouched
extracted model and re-extracting yields the identical (location, text)
collection. -/
theorem roundtrip_pag (d : List (List String)) :
    extractPag (buildPag (extractPag d)) = extractPag d := by
  rw [extractPag_buildPag (extractPag d)]
  have rhs_eq : extractPag d
      = (List.range (supPage (extractPag d))).flatMap
          (fun i => (List.range (supSpan (extractPag d) i)).map
            (fun j => ((i, j), textAtPag (extractPag d) i j))) := by
    have base : extractPag d
        = (List.range d.length).flatMap
            (fun i => (List.range (d.getD i []).length).map
              (fun j => ((i, j), (d.getD i []).getD j ""))) := rfl
    conv_lhs => rw [base]
    rw [flatMap_range_split _ (supPage_extractPag_le d)
      (fun i hPi _ => by
        rw [row_empty_of_supPage_le d i hPi]
        rfl)]
    apply flatMap_congr
    intro i hi
    rw [List.mem_range] at hi
    have hiL : i < d.length := Nat.lt_of_lt_of_le hi (supPage_extractPag_le d)
    rw [supSpan_extractPag d i]
    apply List.map_congr_left
    intro j hj
    rw [List.mem_range] at hj
    rw [textAtPag_extractPag d hiL hj]
  conv_rhs => rw [rhs_eq]

/- ======================================================================
   Round-trip lemmas shared by the three-level formats
   ====================================================================== -/

theorem supFst_le {u : List ((Nat × Nat × Nat) × String)} {B : Nat}
    (h : ∀ x ∈ u, x.1.1 < B) : supFst u ≤ B := by
  induction u with
  | nil => exact Nat.zero_le B
  | cons a t ih =>
    have hr : supFst (a :: t) = max (a.1.1 + 1) (supFst t) := rfl
    rw [hr]
    exact max_le (h a (List.mem_cons_self a t))
      (ih (fun x hx => h x (List.mem_cons_of_mem a hx)))

theorem lt_supFst {u : List ((Nat × Nat × Nat) × String)}
    {x : (Nat × Nat × Nat) × String} (hx : x ∈ u) : x.1.1 < supFst u := by
  induction u with
  | nil => cases hx
  | cons a t ih =>
    have hr : supFst (a :: t) = max (a.1.1 + 1) (supFst t) := rfl
    rw [hr]
    rcases List.mem_cons.mp hx with rfl | hx'
    · exact Nat.lt_of_lt_of_le (Nat.lt_succ_self _) (le_max_left _ _)
    · exact Nat.lt_of_lt_of_le (ih hx') (le_max_right _ _)

theorem supSnd_le {u : List ((Nat × Nat × Nat) × String)} {i B : Nat}
    (h : ∀ x ∈ u, x.1.1 = i → x.1.2.1 < B) : supSnd u i ≤ B := by
  induction u with
  | nil => exact Nat.zero_le B
  | cons a t ih =>
    have hr : supSnd (a :: t) i
        = if a.1.1 = i then max (a.1.2.1 + 1) (supSnd t i)
          else supSnd t i := rfl
    rw [hr]
    by_cases he : a.1.1 = i
    · rw [if_pos he]
      exact max_le (h a (List.mem_cons_self a t) he)
        (ih (fun x hx => h x (List.mem_cons_of_mem a hx)))
    · rw [if_neg he]
      exact ih (fun x hx => h x (List.mem_cons_of_mem a hx))

theorem lt_supSnd {u : List ((Nat × Nat × Nat) × String)}
    {x : (Nat × Nat × Nat) × String} (hx : x ∈ u) :
    x.1.2.1 < supSnd u x.1.1 := by
  induction u with
  | nil => cases hx
  | cons a t ih =>
    rcases List.mem_cons.mp hx with rfl | hx'
    · have hr : supSnd (x :: t) x.1.1
          = if x.1.1 = x.1.1 then max (x.1.2.1 + 1) (supSnd t x.1.1)
            else supSnd t x.1.1 := rfl
      rw [hr, if_pos rfl]
      exact Nat.lt_of_lt_of_le (Nat.lt_succ_self _) (le_max_left _ _)
    · have hle : supSnd t x.1.1 ≤ supSnd (a :: t) x.1.1 := by
        have hr : supSnd (a :: t) x.1.1
            = if a.1.1 = x.1.1 then max (a.1.2.1 + 1) (supSnd t x.1.1)
              else supSnd t x.1.1 := rfl
        rw [hr]
        by_cases he : a.1.1 = x.1.1
        · rw [if_pos he]; exact le_max_right _ _
        · rw [if_neg he]
      exact Nat.lt_of_lt_of_le (ih hx') hle

theorem supThd_le {u : List ((Nat × Nat × Nat) × String)} {i j B : Nat}
    (h : ∀ x ∈ u, x.1.1 = i → x.1.2.1 = j → x.1.2.2 < B) :
    supThd u i j ≤ B := by
  induction u with
  | nil => exact Nat.zero_le B
  | cons a t ih =>
    have hr : supThd (a :: t) i j
        = if a.1.1 = i ∧ a.1.2.1 = j then max (a.1.2.2 + 1) (supThd t i j)
          else supThd t i j := rfl
    rw [hr]
    by_cases he : a.1.1 = i ∧ a.1.2.1 = j
    · rw [if_pos he]
      exact max_le (h a (List.mem_cons_self a t) he.1 he.2)
        (ih (fun x hx => h x (List.mem_cons_of_mem a hx)))
    · rw [if_neg he]
      exact ih (fun x hx => h x (List.mem_cons_of_mem a hx))

theorem lt_supThd {u : List ((Nat × Nat × Nat) × String)}
    {x : (Nat × Nat × Nat) × String} (hx : x ∈ u) :
    x.1.2.2 < supThd u x.1.1 x.1.2.1 := by
  induction u with
  | nil => cases hx
  | cons a t ih =>
    rcases List.mem_cons.mp hx with rfl | hx'
    · have hr : supThd (x :: t) x.1.1 x.1.2.1
          = if x.1.1 = x.1.1 ∧ x.1.2.1 = x.1.2.1 then
              max (x.1.2.2 + 1) (supThd t x.1.1 x.1.2.1)
            else supThd t x.1.1 x.1.2.1 := rfl
      rw [hr, if_pos ⟨rfl, rfl⟩]
      exact Nat.lt_of_lt_of_le (Nat.lt_succ_self _) (le_max_left _ _)
    · have hle : supThd t x.1.1 x.1.2.1 ≤ supThd (a :: t) x.1.1 x.1.2.1 := by
        have hr : supThd (a :: t) x.1.1 x.1.2.1
            = if a.1.1 = x.1.1 ∧ a.1.2.1 = x.1.2.1 then
                max (a.1.2.2 + 1) (supThd t x.1.1 x.1.2.1)
              else supThd t x.1.1 x.1.2.1 := rfl
        rw [hr]
        by_cases he : a.1.1 = x.1.1 ∧ a.1.2.1 = x.1.2.1
        · rw [if_pos he]; exact le_max_right _ _
        · rw [if_neg he]
      exact Nat.lt_of_lt_of_le (ih hx') hle

/- ======================================================================
   Round-trip for the slide-deck format
   ====================================================================== -/

theorem mem_extractSlides {d : List (List (List String))}
    {x : (Nat × Nat × Nat) × String} :
    x ∈ extractSlides d ↔
      x.1.1 < d.length ∧ x.1.2.1 < (d.getD x.1.1 []).length ∧
        x.1.2.2 < ((d.getD x.1.1 []).getD x.1.2.1 []).length ∧
        x.2 = ((d.getD x.1.1 []).getD x.1.2.1 []).getD x.1.2.2 "" := by
  unfold extractSlides
  rw [List.mem_flatMap]
  constructor
  · rintro ⟨i, hi, hx⟩
    rw [List.mem_flatMap] at hx
    rcases hx with ⟨j, hj, hx⟩
    rw [List.mem_map] at hx
    rcases hx with ⟨k, hk, rfl⟩
    rw [List.mem_range] at hi hj hk
    exact ⟨hi, hj, hk, rfl⟩
  · rintro ⟨h1, h2, h3, h4⟩
    refine ⟨x.1.1, List.mem_range.mpr h1, ?_⟩
    rw [List.mem_flatMap]
    refine ⟨x.1.2.1, List.mem_range.mpr h2, ?_⟩
    rw [List.mem_map]
    refine ⟨x.1.2.2, List.mem_range.mpr h3, ?_⟩
    rcases x with ⟨⟨i, j, k⟩, s⟩
    simp only at h4 ⊢
    rw [h4]

theorem runs_pos_bounds {d : List (List (List String))} {i j : Nat}
    (h : 0 < ((d.getD i []).getD j []).length) :
    i < d.length ∧ j < (d.getD i []).length := by
  constructor
  · by_contra hni
    rw [List.getD_eq_default _ _ (Nat.le_of_not_lt hni)] at h
    simp at h
  · by_contra hnj
    rw [List.getD_eq_default _ _ (Nat.le_of_not_lt hnj)] at h
    simp at h

theorem supFst_extractSlides_le (d : List (List (List String))) :
    supFst (extractSlides d) ≤ d.length :=
  supFst_le (fun _ hx => (mem_extractSlides.mp hx).1)

theorem supSnd_extractSlides_le (d : List (List (List String))) (i : Nat) :
    supSnd (extractSlides d) i ≤ (d.getD i []).length := by
  apply supSnd_le
  intro x hx he
  have := (mem_extractSlides.mp hx).2.1
  rw [he] at this
  exact this

theorem runs_empty_of_supFst (d : List (List (List String))) (i j : Nat)
    (h : supFst (extractSlides d) ≤ i) :
    ((d.getD i []).getD j []).length = 0 := by
  by_contra hl
  have hpos : 0 < ((d.getD i []).getD j []).length := Nat.pos_of_ne_zero hl
  rcases runs_pos_bounds hpos with ⟨hi, hj⟩
  have hmem : ((i, j, 0), ((d.getD i []).getD j []).getD 0 "")
      ∈ extractSlides d := mem_extractSlides.mpr ⟨hi, hj, hpos, rfl⟩
  have h2 : i < supFst (extractSlides d) := lt_supFst hmem
  omega

theorem runs_empty_of_supSnd (d : List (List (List String))) (i j : Nat)
    (h : supSnd (extractSlides d) i ≤ j) :
    ((d.getD i []).getD j []).length = 0 := by
  by_contra hl
  have hpos : 0 < ((d.getD i []).getD j []).length := Nat.pos_of_ne_zero hl
  rcases runs_pos_bounds hpos with ⟨hi, hj⟩
  have hmem : ((i, j, 0), ((d.getD i []).getD j []).getD 0 "")
      ∈ extractSlides d := mem_extractSlides.mpr ⟨hi, hj, hpos, rfl⟩
  have h2 : j < supSnd (extractSlides d) i := lt_supSnd hmem
  omega

theorem supThd_extractSlides (d : List (List (List String))) (i j : Nat) :
    supThd (extractSlides d) i j = ((d.getD i []).getD j []).length := by
  apply le_antisymm
  · apply supThd_le
    intro x hx he1 he2
    have := (mem_extractSlides.mp hx).2.2.1
    rw [he1, he2] at this
    exact this
  · by_cases hl : ((d.getD i []).getD j []).length = 0
    · rw [hl]; exact Nat.zero_le _
    · have hpos : 0 < ((d.getD i []).getD j []).length := Nat.pos_of_ne_zero hl
      rcases runs_pos_bounds hpos with ⟨hi, hj⟩
      have hmem : ((i, j, ((d.getD i []).getD j []).length - 1),
          ((d.getD i []).getD j []).getD
            (((d.getD i []).getD j []).length - 1) "") ∈ extractSlides d :=
        mem_extractSlides.mpr ⟨hi, hj, Nat.sub_lt hpos Nat.one_pos, rfl⟩
      have h2 : ((d.getD i []).getD j []).length - 1
          < supThd (extractSlides d) i j := lt_supThd hmem
      omega

theorem textAt3_extractSlides (d : List (List (List String))) {i j k : Nat}
    (hi : i < d.length) (hj : j < (d.getD i []).length)
    (hk : k < ((d.getD i []).getD j []).length) :
    textAt3 (extractSlides d) i j k
      = ((d.getD i []).getD j []).getD k "" := by
  have hmem : ((i, j, k), ((d.getD i []).getD j []).getD k "")
      ∈ extractSlides d := mem_extractSlides.mpr ⟨hi, hj, hk, rfl⟩
  have hsome : ((extractSlides d).find?
      (fun x => decide (x.1 = (i, j, k)))).isSome := by
    rw [List.find?_isSome]
    exact ⟨_, hmem, by simp⟩
  rcases Option.isSome_iff_exists.mp hsome with ⟨y, hy⟩
  have hyloc : y.1 = (i, j, k) := by
    have := List.find?_some hy
    simpa using this
  have hymem := mem_extractSlides.mp (List.mem_of_find?_eq_some hy)
  rcases hymem with ⟨_, _, _, h4⟩
  rw [hyloc] at h4
  unfold textAt3
  rw [hy]
  simpa using h4

theorem extractSlides_build3 (u : List ((Nat × Nat × Nat) × String)) :
    extractSlides (build3 u)
      = (List.range (supFst u)).flatMap
          (fun i => (List.range (supSnd u i)).flatMap
            (fun j => (List.range (supThd u i j)).map
              (fun k => ((i, j, k), textAt3 u i j k)))) := by
  have hlen : (build3 u).length = supFst u := by
    rw [build3, List.length_map, List.length_range]
  have hslide : ∀ i, i < supFst u →
      (build3 u).getD i []
        = (List.range (supSnd u i)).map
            (fun j => (List.range (supThd u i j)).map
              (fun k => textAt3 u i j k)) := by
    intro i hi
    rw [build3]
    exact getD_range_map _ hi _
  have base : extractSlides (build3 u)
      = (List.range (build3 u).length).flatMap
          (fun i => (List.range ((build3 u).getD i []).length).flatMap
            (fun j =>
              (List.range (((build3 u).getD i []).getD j []).length).map
                (fun k => ((i, j, k),
                  (((build3 u).getD i []).getD j []).getD k "")))) := rfl
  rw [base, hlen]
  apply flatMap_congr
  intro i hi
  rw [List.mem_range] at hi
  rw [hslide i hi, List.length_map, List.length_range]
  apply flatMap_congr
  intro j hj
  rw [List.mem_range] at hj
  rw [getD_range_map _ hj, List.length_map, List.length_range]
  apply List.map_congr_left
  intro k hk
  rw [List.mem_range] at hk
  rw [getD_range_map _ hk]

/-- Round-trip of the slide-deck handler: serializing an untouched
extracted model and re-extracting yields the identical (location, text)
collection. -/
theorem roundtrip_slides (d : List (List (List String))) :
    extractSlides (build3 (extractSlides d)) = extractSlides d := by
  rw [extractSlides_build3 (extractSlides d)]
  have rhs_eq : extractSlides d
      = (List.range (supFst (extractSlides d))).flatMap
          (fun i => (List.range (supSnd (extractSlides d) i)).flatMap
            (fun j => (List.range (supThd (extractSlides d) i j)).map
              (fun k => ((i, j, k), textAt3 (extractSlides d) i j k)))) := by
    have base : extractSlides d
        = (List.range d.length).flatMap
            (fun i => (List.range (d.getD i []).length).flatMap
              (fun j => (List.range ((d.getD i []).getD j []).length).map
                (fun k => ((i, j, k),
                  ((d.getD i []).getD j []).getD k "")))) := rfl
    conv_lhs => rw [base]
    rw [flatMap_range_split _ (supFst_extractSlides_le d)
      (fun i hPi _ => by
        apply List.flatMap_eq_nil_iff.mpr
        intro j _
        rw [runs_empty_of_supFst d i j hPi]
        rfl)]
    apply flatMap_congr
    intro i hi
    rw [List.mem_range] at hi
    have hiL : i < d.length :=
      Nat.lt_of_lt_of_le hi (supFst_extractSlides_le d)
    rw [flatMap_range_split _ (supSnd_extractSlides_le d i)
      (fun j hSj _ => by
        rw [runs_empty_of_supSnd d i j hSj]
        rfl)]
    apply flatMap_congr
    intro j hj
    rw [List.mem_range] at hj
    have hjM : j < (d.getD i []).length :=
      Nat.lt_of_lt_of_le hj (supSnd_extractSlides_le d i)
    rw [supThd_extractSlides d i j]
    apply List.map_congr_left
    intro k hk
    rw [List.mem_range] at hk
    rw [textAt3_extractSlides d hiL hjM hk]
  conv_rhs => rw [rhs_eq]

/- ======================================================================
   Round-trip for the tabular format
   ====================================================================== -/

theorem filter_map_range_split {α : Type} {P L : Nat} (f : Nat → α)
    (pred : α → Bool) (hPL : P ≤ L)
    (hnil : ∀ k, P ≤ k → k < L → pred (f k) = false) :
    ((List.range L).map f).filter pred
      = ((List.range P).map f).filter pred := by
  have hL : L = P + (L - P) := (Nat.add_sub_cancel' hPL).symm
  rw [hL, List.range_add, List.map_append, List.filter_append, List.map_map]
  have hz : ((List.range (L - P)).map (f ∘ (P + ·))).filter pred = [] := by
    rw [List.filter_eq_nil_iff]
    intro a ha
    rw [List.mem_map] at ha
    rcases ha with ⟨k, hk, rfl⟩
    rw [List.mem_range] at hk
    have := hnil (P + k) (Nat.le_add_right P k) (by omega)
    simp only [Function.comp_apply]
    rw [this]
    simp
  rw [hz, List.append_nil]

theorem mem_extractTab {d : List (List (List String))}
    {x : (Nat × Nat × Nat) × String} :
    x ∈ extractTab d ↔
      x.1.1 < d.length ∧ x.1.2.1 < (d.getD x.1.1 []).length ∧
        x.1.2.2 < ((d.getD x.1.1 []).getD x.1.2.1 []).length ∧
        x.2 = ((d.getD x.1.1 []).getD x.1.2.1 []).getD x.1.2.2 "" ∧
        x.2 ≠ "" := by
  unfold extractTab
  rw [List.mem_flatMap]
  constructor
  · rintro ⟨i, hi, hx⟩
    rw [List.mem_flatMap] at hx
    rcases hx with ⟨j, hj, hx⟩
    rw [List.mem_filter] at hx
    rcases hx with ⟨hx, hpred⟩
    rw [List.mem_map] at hx
    rcases hx with ⟨k, hk, rfl⟩
    rw [List.mem_range] at hi hj hk
    refine ⟨hi, hj, hk, rfl, ?_⟩
    simpa using hpred
  · rintro ⟨h1, h2, h3, h4, h5⟩
    refine ⟨x.1.1, List.mem_range.mpr h1, ?_⟩
    rw [List.mem_flatMap]
    refine ⟨x.1.2.1, List.mem_range.mpr h2, ?_⟩
    rw [List.mem_filter]
    constructor
    · rw [List.mem_map]
      refine ⟨x.1.2.2, List.mem_range.mpr h3, ?_⟩
      rcases x with ⟨⟨i, j, k⟩, s⟩
      simp only at h4 ⊢
      rw [h4]
    · simpa using h5

theorem supFst_extractTab_le (d : List (List (List String))) :
    supFst (extractTab d) ≤ d.length :=
  supFst_le (fun _ hx => (mem_extractTab.mp hx).1)

theorem supSnd_extractTab_le (d : List (List (List String))) (i : Nat) :
    supSnd (extractTab d) i ≤ (d.getD i []).length := by
  apply supSnd_le
  intro x hx he
  have := (mem_extractTab.mp hx).2.1
  rw [he] at this
  exact this

theorem supThd_extractTab_le (d : List (List (List String))) (i j : Nat) :
    supThd (extractTab d) i j ≤ ((d.getD i []).getD j []).length := by
  apply supThd_le
  intro x hx he1 he2
  have := (mem_extractTab.mp hx).2.2.1
  rw [he1, he2] at this
  exact this

theorem cell_empty_of_supFst (d : List (List (List String))) {i j k : Nat}
    (hi : i < d.length) (hj : j < (d.getD i []).length)
    (hk : k < ((d.getD i []).getD j []).length)
    (hP : supFst (extractTab d) ≤ i) :
    ((d.getD i []).getD j []).getD k "" = "" := by
  by_contra hne
  have hmem : ((i, j, k), ((d.getD i []).getD j []).getD k "")
      ∈ extractTab d := mem_extractTab.mpr ⟨hi, hj, hk, rfl, hne⟩
  have h2 : i < supFst (extractTab d) := lt_supFst hmem
  omega

theorem cell_empty_of_supSnd (d : List (List (List String))) {i j k : Nat}
    (hi : i < d.length) (hj : j < (d.getD i []).length)
    (hk : k < ((d.getD i []).getD j []).length)
    (hS : supSnd (extractTab d) i ≤ j) :
    ((d.getD i []).getD j []).getD k "" = "" := by
  by_contra hne
  have hmem : ((i, j, k), ((d.getD i []).getD j []).getD k "")
      ∈ extractTab d := mem_extractTab.mpr ⟨hi, hj, hk, rfl, hne⟩
  have h2 : j < supSnd (extractTab d) i := lt_supSnd hmem
  omega

theorem cell_empty_of_supThd (d : List (List (List String))) {i j k : Nat}
    (hi : i < d.length) (hj : j < (d.getD i []).length)
    (hk : k < ((d.getD i []).getD j []).length)
    (hT : supThd (extractTab d) i j ≤ k) :
    ((d.getD i []).getD j []).getD k "" = "" := by
  by_contra hne
  have hmem : ((i, j, k), ((d.getD i []).getD j []).getD k "")
      ∈ extractTab d := mem_extractTab.mpr ⟨hi, hj, hk, rfl, hne⟩
  have h2 : k < supThd (extractTab d) i j := lt_supThd hmem
  omega

theorem textAt3_extractTab (d : List (List (List String))) {i j k : Nat}
    (hi : i < d.length) (hj : j < (d.getD i []).length)
    (hk : k < ((d.getD i []).getD j []).length) :
    textAt3 (extractTab d) i j k
      = ((d.getD i []).getD j []).getD k "" := by
  by_cases hc : ((d.getD i []).getD j []).getD k "" = ""
  · have hnone : (extractTab d).find?
        (fun x => decide (x.1 = (i, j, k))) = none := by
      rw [List.find?_eq_none]
      intro x hx hloc
      simp only [decide_eq_true_eq] at hloc
      rcases mem_extractTab.mp hx with ⟨_, _, _, h4, h5⟩
      rw [hloc] at h4
      simp only at h4
      rw [h4, hc] at h5
      exact h5 rfl
    unfold textAt3
    rw [hnone, hc]
    rfl
  · have hmem : ((i, j, k), ((d.getD i []).getD j []).getD k "")
        ∈ extractTab d := mem_extractTab.mpr ⟨hi, hj, hk, rfl, hc⟩
    have hsome : ((extractTab d).find?
        (fun x => decide (x.1 = (i, j, k)))).isSome := by
      rw [List.find?_isSome]
      exact ⟨_, hmem, by simp⟩
    rcases Option.isSome_iff_exists.mp hsome with ⟨y, hy⟩
    have hyloc : y.1 = (i, j, k) := by
      have := List.find?_some hy
      simpa using this
    have hymem := mem_extractTab.mp (List.mem_of_find?_eq_some hy)
    rcases hymem with ⟨_, _, _, h4, _⟩
    rw [hyloc] at h4
    unfold textAt3
    rw [hy]
    simpa using h4

theorem extractTab_build3 (u : List ((Nat × Nat × Nat) × String)) :
    extractTab (build3 u)
      = (List.range (supFst u)).flatMap
          (fun i => (List.range (supSnd u i)).flatMap
            (fun j => ((List.range (supThd u i j)).map
              (fun k => ((i, j, k), textAt3 u i j k))).filter
                (fun x => !(x.2 == "")))) := by
  have hlen : (build3 u).length = supFst u := by
    rw [build3, List.length_map, List.length_range]
  have hslide : ∀ i, i < supFst u →
      (build3 u).getD i []
        = (List.range (supSnd u i)).map
            (fun j => (List.range (supThd u i j)).map
              (fun k => textAt3 u i j k)) := by
    intro i hi
    rw [build3]
    exact getD_range_map _ hi _
  have base : extractTab (build3 u)
      = (List.range (build3 u).length).flatMap
          (fun i => (List.range ((build3 u).getD i []).length).flatMap
            (fun j =>
              ((List.range (((build3 u).getD i []).getD j []).length).map
                (fun k => ((i, j, k),
                  (((build3 u).getD i []).getD j []).getD k ""))).filter
                    (fun x => !(x.2 == "")))) := rfl
  rw [base, hlen]
  apply flatMap_congr
  intro i hi
  rw [List.mem_range] at hi
  rw [hslide i hi, List.length_map, List.length_range]
  apply flatMap_congr
  intro j hj
  rw [List.mem_range] at hj
  rw [getD_range_map _ hj, List.length_map, List.length_range]
  apply congrArg (List.filter _)
  apply List.map_congr_left
  intro k hk
  rw [List.mem_range] at hk
  rw [getD_range_map _ hk]

/-- Round-trip of the tabular handler: serializing an untouched extracted
model and re-extracting yields the identical (location, text) collection
of non-empty cells. -/
theorem roundtrip_tab (d : List (List (List String))) :
    extractTab (build3 (extractTab d)) = extractTab d := by
  rw [extractTab_build3 (extractTab d)]
  have rhs_eq : extractTab d
      = (List.range (supFst (extractTab d))).flatMap
          (fun i => (List.range (supSnd (extractTab d) i)).flatMap
            (fun j => ((List.range (supThd (extractTab d) i j)).map
              (fun k => ((i, j, k), textAt3 (extractTab d) i j k))).filter
                (fun x => !(x.2 == "")))) := by
    have base : extractTab d
        = (List.range d.length).flatMap
            (fun i => (List.range (d.getD i []).length).flatMap
              (fun j =>
                ((List.range ((d.getD i []).getD j []).length).map
                  (fun k => ((i, j, k),
                    ((d.getD i []).getD j []).getD k ""))).filter
                      (fun x => !(x.2 == "")))) := rfl
    conv_lhs => rw [base]
    rw [flatMap_range_split _ (supFst_extractTab_le d)
      (fun i hPi hiL => by
        apply List.flatMap_eq_nil_iff.mpr
        intro j hj
        rw [List.mem_range] at hj
        rw [List.filter_eq_nil_iff]
        intro a ha
        rw [List.mem_map] at ha
        rcases ha with ⟨k, hk, rfl⟩
        rw [List.mem_range] at hk
        have hce := cell_empty_of_supFst d hiL hj hk hPi
        simpa using hce)]
    apply flatMap_congr
    intro i hi
    rw [List.mem_range] at hi
    have hiL : i < d.length :=
      Nat.lt_of_lt_of_le hi (supFst_extractTab_le d)
    rw [flatMap_range_split _ (supSnd_extractTab_le d i)
      (fun j hSj hjM => by
        rw [List.filter_eq_nil_iff]
        intro a ha
        rw [List.mem_map] at ha
        rcases ha with ⟨k, hk, rfl⟩
        rw [List.mem_range] at hk
        have hce := cell_empty_of_supSnd d hiL hjM hk hSj
        simpa using hce)]
    apply flatMap_congr
    intro j hj
    rw [List.mem_range] at hj
    have hjM : j < (d.getD i []).length :=
      Nat.lt_of_lt_of_le hj (supSnd_extractTab_le d i)
    rw [filter_map_range_split _ _ (supThd_extractTab_le d i j)
      (fun k hTk hkR => by
        have hce := cell_empty_of_supThd d hiL hjM hkR hTk
        simpa using hce)]
    apply congrArg (List.filter _)
    apply List.map_congr_left
    intro k hk
    rw [List.mem_range] at hk
    have hkR : k < ((d.getD i []).getD j []).length :=
      Nat.lt_of_lt_of_le hk (supThd_extractTab_le d i j)
    rw [textAt3_extractTab d hiL hjM hkR]
  conv_rhs => rw [rhs_eq]

/- ======================================================================
   Round-trip for the plain-text format
   ====================================================================== -/

theorem splitOnChar_ne_nil (c : Char) (s : List Char) :
    splitOnChar c s ≠ [] := by
  induction s with
  | nil => simp [splitOnChar]
  | cons a t ih =>
    rw [splitOnChar]
    by_cases he : a = c
    · rw [if_pos he]; simp
    · rw [if_neg he]
      rcases h : splitOnChar c t with _ | ⟨hd, tl⟩
      · simp
      · simp

theorem not_mem_of_mem_splitOnChar (c : Char) (s : List Char) :
    ∀ p ∈ splitOnChar c s, c ∉ p := by
  induction s with
  | nil =>
    intro p hp
    rw [splitOnChar] at hp
    rw [List.mem_singleton] at hp
    rw [hp]
    simp
  | cons a t ih =>
    intro p hp
    rw [splitOnChar] at hp
    by_cases he : a = c
    · rw [if_pos he] at hp
      rcases List.mem_cons.mp hp with rfl | hp'
      · simp
      · exact ih p hp'
    · rw [if_neg he] at hp
      rcases h : splitOnChar c t with _ | ⟨hd, tl⟩
      · exact absurd h (splitOnChar_ne_nil c t)
      · rw [h] at hp
        rcases List.mem_cons.mp hp with rfl | hp'
        · intro hcp
          rcases List.mem_cons.mp hcp with he' | hc'
          · exact he he'.symm
          · exact ih hd (h ▸ List.mem_cons_self hd tl) hc'
        · exact ih p (h ▸ List.mem_cons_of_mem hd hp')

theorem splitOnChar_no_occur (c : Char) (s : List Char) (h : c ∉ s) :
    splitOnChar c s = [s] := by
  induction s with
  | nil => rfl
  | cons a t ih =>
    have ha : a ≠ c := fun he => h (he ▸ List.mem_cons_self a t)
    have ht : c ∉ t := fun hc => h (List.mem_cons_of_mem a hc)
    rw [splitOnChar, if_neg ha, ih ht]

theorem splitOnChar_append (c : Char) (p rest : List Char) (h : c ∉ p) :
    splitOnChar c (p ++ c :: rest) = p :: splitOnChar c rest := by
  induction p with
  | nil =>
    rw [List.nil_append, splitOnChar, if_pos rfl]
  | cons a p' ih =>
    have ha : a ≠ c := fun he => h (he ▸ List.mem_cons_self a p')
    have hp' : c ∉ p' := fun hc => h (List.mem_cons_of_mem a hc)
    rw [List.cons_append, splitOnChar, if_neg ha, ih hp']

theorem splitOnChar_joinChar (c : Char) :
    ∀ ls : List (List Char), ls ≠ [] → (∀ p ∈ ls, c ∉ p) →
      splitOnChar c (joinChar c ls) = ls := by
  intro ls
  induction ls with
  | nil => intro h _; exact absurd rfl h
  | cons p ps ih =>
    intro _ h
    cases ps with
    | nil =>
      rw [joinChar]
      exact splitOnChar_no_occur c p (h p (List.mem_cons_self p []))
    | cons q ps' =>
      rw [joinChar, splitOnChar_append c p _ (h p (List.mem_cons_self p _))]
      rw [ih (by simp) (fun x hx => h x (List.mem_cons_of_mem p hx))]

theorem map_unit_data (L : List (List Char)) :
    (((L.map (fun l => (⟨l⟩ : String))).enum).map (fun u => u.2.data)) = L := by
  have h1 : (fun (u : Nat × String) => u.2.data)
      = (String.data ∘ Prod.snd) := rfl
  rw [h1, ← List.map_map, List.enum_map_snd, List.map_map]
  have h2 : (String.data ∘ fun l : List Char => (⟨l⟩ : String)) = id :=
    funext (fun _ => rfl)
  rw [h2, List.map_id]

/-- Round-trip of the plain-text handler: serializing an untouched
extracted model and re-extracting yields the identical line units. -/
theorem roundtrip_plain (x : String) :
    extractPlain (serializePlain (extractPlain x)) = extractPlain x := by
  have key : serializePlain (extractPlain x)
      = ⟨joinChar '\n' (splitOnChar '\n' x.data)⟩ := by
    rw [serializePlain, extractPlain, map_unit_data]
  rw [key, extractPlain, extractPlain]
  have hdata : (String.mk (joinChar '\n' (splitOnChar '\n' x.data))).data
      = joinChar '\n' (splitOnChar '\n' x.data) := rfl
  rw [hdata, splitOnChar_joinChar '\n' (splitOnChar '\n' x.data)
    (splitOnChar_ne_nil '\n' x.data)
    (not_mem_of_mem_splitOnChar '\n' x.data)]

/- ======================================================================
   Claim C9: extract-serialize round trip across all supported formats
   ====================================================================== -/

theorem map_pair_eta {α β : Type} (l : List (α × β)) :
    l.map (fun p => (p.1, p.2)) = l := by
  induction l with
  | nil => rfl
  | cons a t ih => rw [List.map_cons, ih, Prod.mk.eta]

/-- C9: for every supported format and every structurally valid document,
serializing the untouched extracted ContentModel and re-extracting yields
the identical collection of (location, text) pairs:
`extract(serialize(extract(x))) = extract(x)`. -/
theorem extract_serialize_roundtrip (x : RawDoc) :
    extractDoc (serializeDoc (formatOf x) (extractDoc x)) = extractDoc x := by
  cases x with
  | plain s =>
    show (extractPlain (serializePlain
        ((((extractPlain s).map (fun p => ((p.1, 0, 0), p.2))).map
          (fun p => (p.1.1, p.2)))))).map (fun p => ((p.1, 0, 0), p.2))
      = (extractPlain s).map (fun p => ((p.1, 0, 0), p.2))
    rw [List.map_map]
    have hcomp : ((fun (p : Loc × String) => (p.1.1, p.2)) ∘
        (fun (p : Nat × String) => (((p.1, 0, 0) : Loc), p.2)))
          = fun (p : Nat × String) => (p.1, p.2) := rfl
    rw [hcomp, map_pair_eta, roundtrip_plain]
  | paginated d =>
    show (extractPag (buildPag
        ((((extractPag d).map (fun p => ((p.1.1, p.1.2, 0), p.2))).map
          (fun p => ((p.1.1, p.1.2.1), p.2)))))).map
            (fun p => ((p.1.1, p.1.2, 0), p.2))
      = (extractPag d).map (fun p => ((p.1.1, p.1.2, 0), p.2))
    rw [List.map_map]
    have hcomp : ((fun (p : Loc × String) => ((p.1.1, p.1.2.1), p.2)) ∘
        (fun (p : (Nat × Nat) × String) => (((p.1.1, p.1.2, 0) : Loc), p.2)))
          = fun (p : (Nat × Nat) × String) => ((p.1.1, p.1.2), p.2) := rfl
    rw [hcomp]
    have heta : ∀ l : List ((Nat × Nat) × String),
        l.map (fun p => ((p.1.1, p.1.2), p.2)) = l := by
      intro l
      induction l with
      | nil => rfl
      | cons a t ih =>
        rcases a with ⟨⟨i, j⟩, s⟩
        rw [List.map_cons, ih]
    rw [heta, roundtrip_pag]
  | slides d => exact roundtrip_slides d
  | tabular d => exact roundtrip_tab d

/- ======================================================================
   Concrete evaluations of the embedded definitions
   ====================================================================== -/

example : substUnit [("Coca Cola", "[CLIENT]"), ("Cola", "[PRODUCT]")]
    "Coca Cola Inc." = "[CLIENT] Inc." := by decide

example : substUnit [("Cola", "[PRODUCT]"), ("Coca Cola", "[CLIENT]")]
    "Coca Cola Inc." = "[CLIENT] Inc." := by decide

example : (redactEngine "a" [("a", "[a]")]).1 = "[a]" := by decide

example : (redactEngine "[a]" [("a", "[a]")]).1 = "[[a]]" := by decide

example : redactEngine "hello" [("x", "[X]")] =
    ("hello", ⟨0, [], .no_entities_found⟩) := by decide

example : detectFileFormat "/Volumes/a/b/Report.MD" = "markdown" := by decide

example : detectFileFormat "archive.zip" = "unknown" := by decide

example : hasHandler "unknown" = false := by decide

example : pySplitextExt ".bashrc" = "" := by decide

example : pySplitextExt "a.tar.gz" = ".gz" := by decide

example : redactDocuments envBatch ["a.md", "b.md", "c.md"] =
    .error "corrupted bytes" := rfl

example : redactDocuments envBatch ["archive.zip"] = .ok [] := rfl

example : redactDocuments envBatch ["a.md"] =
    .ok [⟨"a.md", "a.md_redacted", 1, "redacted", "markdown"⟩] := rfl

example : canHandle .markdown "Notes.MD" "application/zip" = true := by decide

example : canHandle .markdown "notes.txt" "text/markdown" = true := by decide

example : canHandle .excel "book.xls" "" = true := by decide

example :
    pollForResults (fun i => if i < 30 then .ok true [] else .ok true ["row"]) 0
      = .timeout := by decide

example :
    pollForResults (fun i => if i = 2 then .ok true ["row"] else .exn) 0
      = .success ["row"] 2 := by decide

example : submitJob ⟨[("doc1", .pending)], 1⟩ "doc1" =
    ("doc1", ⟨[("doc1", .pending)], 1⟩) := by decide

example :
    (submitJob (submitJob ⟨[], 0⟩ "doc1").2 "doc1").2.started = 1 := by decide

example :
    extractPag (buildPag (extractPag [["a", "b"], [], ["c"]]))
      = extractPag [["a", "b"], [], ["c"]] := by decide

example :
    extractPag (buildPag (extractPag [["a"], []]))
      = extractPag [["a"], []] := by decide

example :
    extractTab (build3 (extractTab [[["", "x"], ["", ""]]]))
      = extractTab [[["", "x"], ["", ""]]] := by decide

example :
    extractSlides (build3 (extractSlides [[["r1", ""], []], []]))
      = extractSlides [[["r1", ""], []], []] := by decide

example :
    extractDoc (serializeDoc (formatOf (.plain "a\nb")) (extractDoc (.plain "a\nb")))
      = extractDoc (.plain "a\nb") := by decide
